import Mathlib

/-!
Verification development for the HiDRA sender pipeline
(schooft/hidra).

The Python sources are shallowly embedded: pure fragments become Lean
functions, the SignalHandler loop becomes explicit state passing over a
`SHState` record, fallible sends become `Except`-style results, and byte
strings become `List Char` / `List Nat`.  Modules that the sender imports
but that are absent from the repository snapshot (`utils`,
`_version`, the regex engine behind `re.compile`) are represented by
explicit parameters of the embedding, documented at each definition.
-/

namespace Hidra

/-! ## Version comparison (src/shared/helpers.py, checkVersion)

Python strings are embedded as `List Char`.  `pyStrLt` is Python's
lexicographic `<` on strings (character comparison with the proper-prefix
rule), `rsplitHead` is `s.rsplit(".", 1)[0]` (everything before the last
dot, or the whole string when there is no dot). -/

/-- Python string `<`: lexicographic with the proper-prefix rule. -/
def pyStrLt : List Char → List Char → Bool
  | [], [] => false
  | [], _ :: _ => true
  | _ :: _, [] => false
  | a :: as, b :: bs => if a < b then true else if b < a then false else pyStrLt as bs

/-- `s.rsplit(".", 1)[0]`: the characters before the last `'.'`;
the whole string when no dot occurs. -/
def rsplitHead (s : List Char) : List Char :=
  match s.reverse.dropWhile (fun c => c ≠ '.') with
  | [] => s
  | _ :: rest => rest.reverse

/-- `checkVersion` from src/src/shared/helpers.py lines 209-218: the remote
version is accepted iff its `rsplit(".", 1)[0]` head is neither
lexicographically below nor above the local one. -/
def checkVersion (version localVer : List Char) : Bool :=
  if pyStrLt (rsplitHead version) (rsplitHead localVer) then false
  else if pyStrLt (rsplitHead localVer) (rsplitHead version) then false
  else true

/-- Splitting a version string at every `'.'` into its components
(the semantics of Python `s.split(".")`). -/
def splitOnDot : List Char → List (List Char)
  | [] => [[]]
  | c :: cs =>
    if c = '.' then [] :: splitOnDot cs
    else
      match splitOnDot cs with
      | [] => [[c]]
      | p :: ps => (c :: p) :: ps

/-- Joining components with `'.'` (inverse of `splitOnDot`). -/
def joinDot : List (List Char) → List Char
  | [] => []
  | [p] => p
  | p :: ps => p ++ '.' :: joinDot ps

theorem pyStrLt_irrefl (a : List Char) : pyStrLt a a = false := by
  induction a with
  | nil => rfl
  | cons c cs ih => simp [pyStrLt, ih]

theorem pyStrLt_eq_false_iff (a b : List Char) :
    (pyStrLt a b = false ∧ pyStrLt b a = false) ↔ a = b := by
  constructor
  · intro ⟨h1, h2⟩
    induction a generalizing b with
    | nil => cases b with
      | nil => rfl
      | cons c cs => simp [pyStrLt] at h1
    | cons c cs ih =>
      cases b with
      | nil => simp [pyStrLt] at h2
      | cons d ds =>
        simp only [pyStrLt] at h1 h2
        by_cases hcd : c < d
        · simp [hcd] at h1
        · by_cases hdc : d < c
          · simp [hcd, hdc] at h2
          · have : c = d := le_antisymm (not_lt.mp hdc) (not_lt.mp hcd)
            subst this
            simp only [hcd, if_false, lt_irrefl] at h1 h2
            rw [ih ds h1 h2]
  · intro h
    subst h
    exact ⟨pyStrLt_irrefl a, pyStrLt_irrefl a⟩

theorem splitOnDot_ne_nil (s : List Char) : splitOnDot s ≠ [] := by
  cases s with
  | nil => simp [splitOnDot]
  | cons c cs =>
    simp only [splitOnDot]
    by_cases h : c = '.'
    · simp [h]
    · simp only [h, if_false]
      cases splitOnDot cs <;> simp

/-- A dot-free string splits into itself as the single component. -/
theorem splitOnDot_of_no_dot (p : List Char) (hp : '.' ∉ p) :
    splitOnDot p = [p] := by
  induction p with
  | nil => rfl
  | cons c cs ih =>
    have hc : c ≠ '.' := fun h => hp (by simp [h])
    have hcs : '.' ∉ cs := fun h => hp (List.mem_cons_of_mem c h)
    simp only [splitOnDot, hc, if_false]
    rw [ih hcs]

/-- Every component produced by `splitOnDot` is dot-free. -/
theorem splitOnDot_no_dot (s : List Char) :
    ∀ p ∈ splitOnDot s, '.' ∉ p := by
  induction s with
  | nil =>
    intro p hp
    simp [splitOnDot] at hp
    simp [hp]
  | cons c cs ih =>
    intro p hp
    simp only [splitOnDot] at hp
    by_cases h : c = '.'
    · simp only [h, if_true] at hp
      rcases List.mem_cons.mp hp with hp | hp
      · simp [hp]
      · exact ih p hp
    · simp only [h, if_false] at hp
      rcases hsp : splitOnDot cs with _ | ⟨q, qs⟩
      · exact absurd hsp (splitOnDot_ne_nil cs)
      · rw [hsp] at hp
        rcases List.mem_cons.mp hp with hp | hp
        · subst hp
          intro hmem
          rcases List.mem_cons.mp hmem with hmem | hmem
          · exact h hmem.symm
          · exact ih q (by rw [hsp]; exact List.mem_cons_self q qs) hmem
        · exact ih p (by rw [hsp]; exact List.mem_cons_of_mem q hp)

/-- `splitOnDot` after prepending a dot-free chunk and a dot. -/
theorem splitOnDot_chunk (p t : List Char) (hp : '.' ∉ p) :
    splitOnDot (p ++ '.' :: t) = p :: splitOnDot t := by
  induction p with
  | nil => simp [splitOnDot]
  | cons c cs ih =>
    have hc : c ≠ '.' := fun h => hp (by simp [h])
    have hcs : '.' ∉ cs := fun h => hp (List.mem_cons_of_mem c h)
    show splitOnDot (c :: (cs ++ '.' :: t)) = (c :: cs) :: splitOnDot t
    simp only [splitOnDot, hc, if_false]
    rw [ih hcs]

/-- Round trip: splitting the dot-join of nonempty dot-free components
recovers the components. -/
theorem splitOnDot_joinDot (ps : List (List Char)) (hne : ps ≠ [])
    (hnd : ∀ p ∈ ps, '.' ∉ p) : splitOnDot (joinDot ps) = ps := by
  induction ps with
  | nil => exact absurd rfl hne
  | cons p ps ih =>
    cases ps with
    | nil => exact splitOnDot_of_no_dot p (hnd p (List.mem_cons_self p []))
    | cons q qs =>
      have hjoin : joinDot (p :: q :: qs) = p ++ '.' :: joinDot (q :: qs) := rfl
      rw [hjoin, splitOnDot_chunk p _ (hnd p (List.mem_cons_self p _))]
      rw [ih (by simp) (fun r hr => hnd r (List.mem_cons_of_mem p hr))]

/-- Every string is the dot-join of its components. -/
theorem joinDot_splitOnDot (s : List Char) : joinDot (splitOnDot s) = s := by
  induction s with
  | nil => rfl
  | cons c cs ih =>
    simp only [splitOnDot]
    by_cases h : c = '.'
    · subst h
      rcases hsp : splitOnDot cs with _ | ⟨q, qs⟩
      · exact absurd hsp (splitOnDot_ne_nil cs)
      · simp only [if_true]
        rw [hsp] at ih
        show [] ++ '.' :: joinDot (q :: qs) = '.' :: cs
        simp [ih]
    · simp only [h, if_false]
      rcases hsp : splitOnDot cs with _ | ⟨q, qs⟩
      · exact absurd hsp (splitOnDot_ne_nil cs)
      · rw [hsp] at ih
        cases qs with
        | nil =>
          show c :: q = c :: cs
          simpa using ih
        | cons r rs =>
          show (c :: q) ++ '.' :: joinDot (r :: rs) = c :: cs
          have : q ++ '.' :: joinDot (r :: rs) = cs := ih
          simp [this]

/-- A string containing a dot has at least two components. -/
theorem splitOnDot_length_ge_two (s : List Char) (h : '.' ∈ s) :
    2 ≤ (splitOnDot s).length := by
  induction s with
  | nil => simp at h
  | cons c cs ih =>
    simp only [splitOnDot]
    by_cases hc : c = '.'
    · simp only [hc, if_true, List.length_cons]
      have h1 : 1 ≤ (splitOnDot cs).length := by
        cases hsp : splitOnDot cs with
        | nil => exact absurd hsp (splitOnDot_ne_nil cs)
        | cons _ _ => simp
      omega
    · have hmem : '.' ∈ cs := by
        rcases List.mem_cons.mp h with h | h
        · exact absurd h.symm hc
        · exact h
      rcases hsp : splitOnDot cs with _ | ⟨q, qs⟩
      · exact absurd hsp (splitOnDot_ne_nil cs)
      · simp only [hc, if_false, hsp, List.length_cons]
        have := ih hmem
        rw [hsp] at this
        simp only [List.length_cons] at this
        simpa using this

/-- `joinDot` over a snoc decomposition. -/
theorem joinDot_append_single (ps : List (List Char)) (q : List Char)
    (hne : ps ≠ []) : joinDot (ps ++ [q]) = joinDot ps ++ '.' :: q := by
  induction ps with
  | nil => exact absurd rfl hne
  | cons p ps ih =>
    cases ps with
    | nil => rfl
    | cons r rs =>
      have h1 : joinDot ((p :: r :: rs) ++ [q]) =
          p ++ '.' :: joinDot ((r :: rs) ++ [q]) := rfl
      have h2 : joinDot (p :: r :: rs) = p ++ '.' :: joinDot (r :: rs) := rfl
      rw [h1, ih (by simp), h2]
      simp

/-- Dropping the leading dot-free block of a reversed tail. -/
theorem dropWhile_no_dot (b rest : List Char) (hb : '.' ∉ b) :
    (b ++ '.' :: rest).dropWhile (fun c => c ≠ '.') = '.' :: rest := by
  induction b with
  | nil => simp [List.dropWhile]
  | cons c cs ih =>
    have hc : c ≠ '.' := fun h => hb (by simp [h])
    have hcs : '.' ∉ cs := fun h => hb (List.mem_cons_of_mem c h)
    show ((c :: (cs ++ '.' :: rest)).dropWhile fun c => c ≠ '.') = '.' :: rest
    rw [List.dropWhile_cons_of_pos (by simpa using hc)]
    exact ih hcs

/-- The `rsplit` head of a string whose last dot-free block is `b`. -/
theorem rsplitHead_append (a b : List Char) (hb : '.' ∉ b) :
    rsplitHead (a ++ '.' :: b) = a := by
  unfold rsplitHead
  have hrev : (a ++ '.' :: b).reverse = b.reverse ++ '.' :: a.reverse := by
    simp
  rw [hrev, dropWhile_no_dot _ _ (by simpa using hb)]
  simp

/-- For a dotted string, the `rsplit` head is the dot-join of all
components but the last. -/
theorem rsplitHead_eq_joinDot_dropLast (s : List Char) (h : '.' ∈ s) :
    rsplitHead s = joinDot (splitOnDot s).dropLast := by
  have hsplit_ne : splitOnDot s ≠ [] := splitOnDot_ne_nil s
  have hlast : (splitOnDot s).dropLast ++ [(splitOnDot s).getLast hsplit_ne] =
      splitOnDot s := List.dropLast_append_getLast hsplit_ne
  have hdl_ne : (splitOnDot s).dropLast ≠ [] := by
    have h2 := splitOnDot_length_ge_two s h
    intro hcon
    have := congrArg List.length hlast
    rw [hcon] at this
    simp at this
    omega
  have hnd : '.' ∉ (splitOnDot s).getLast hsplit_ne :=
    splitOnDot_no_dot s _ (List.getLast_mem hsplit_ne)
  have hs : s = joinDot (splitOnDot s).dropLast ++
      '.' :: (splitOnDot s).getLast hsplit_ne := by
    conv_lhs => rw [← joinDot_splitOnDot s, ← hlast]
    exact joinDot_append_single _ _ hdl_ne
  conv_lhs => rw [hs]
  rw [rsplitHead_append _ _ hnd]

/-- `checkVersion` accepts iff the `rsplit` heads agree. -/
theorem checkVersion_eq_true_iff (v l : List Char) :
    checkVersion v l = true ↔ rsplitHead v = rsplitHead l := by
  unfold checkVersion
  constructor
  · intro h
    by_cases h1 : pyStrLt (rsplitHead v) (rsplitHead l)
    · simp [h1] at h
    · by_cases h2 : pyStrLt (rsplitHead l) (rsplitHead v)
      · simp [h1, h2] at h
      · exact (pyStrLt_eq_false_iff _ _).mp
          ⟨Bool.not_eq_true _ ▸ Bool.of_not_eq_true h1,
           Bool.of_not_eq_true h2⟩
  · intro h
    rw [h]
    simp [pyStrLt_irrefl]

/-! ## SignalHandler data model (src/src/sender/signalhandler.py)

A subscription entry is a Python list `[<host>:<port>, <prio>, <regex>,
<data|metadata>]`.  The compiled regex object is represented by its source
string `patternStr`; the regex engine behind `re.compile`/`.match` is a
parameter `compile : String → String → Bool` of the operations that match
(the `re` module is external to the repository).  Python object identity of
compiled regexes is irrelevant to the embedded operations: entries that are
structurally equal behave identically under `list.remove` / `in`. -/

inductive SendType
  | data
  | metadata
deriving DecidableEq, Repr

/-- The string Python compares when sorting on the send-type slot. -/
def sendTypeStr : SendType → String
  | .data => "data"
  | .metadata => "metadata"

structure Subscription where
  socketId : String
  prio : Nat
  patternStr : String
  sendType : SendType
deriving DecidableEq, Repr

/-- The third slot of an external target entry: either a suffix list or a
raw regex string (API compatibility, see convert_suffix_list_to_regex). -/
inductive PatternInput
  | suffixList (suffixes : List String)
  | raw (regex : String)
deriving DecidableEq, Repr

/-- `convert_suffix_list_to_regex` from src/src/APIs/hidra/transfer.py
(lines 145-196), called with `suffix=True, compile_regex=False`: a list of
suffixes becomes the anchored regex `.*(s1|s2|...)$`; a raw string passes
through. -/
def convertSuffixListToRegex : PatternInput → String
  | .raw s => s
  | .suffixList l =>
    let fileSuffix : List Char :=
      (l.foldl (fun acc s => acc ++ (if s.data ≠ [] then s.data else []) ++ ['|']) []).dropLast
    ⟨'.' :: '*' :: (if fileSuffix ≠ [] then '(' :: fileSuffix ++ [')', '$'] else [])⟩

/-- One element of the decoded `json-targets` list:
`[<host>:<port>, <prio>, <suffix list or regex>]`. -/
structure SockConf where
  socketId : String
  prio : Nat
  pattern : PatternInput
deriving DecidableEq, Repr

/-- Python's lexicographic comparison of the registered 4-lists
`[socket_id, prio, pattern, send_type]` used by `sorted` in
`_start_signal`. -/
def subLe (a b : Subscription) : Bool :=
  if pyStrLt a.socketId.data b.socketId.data then true
  else if pyStrLt b.socketId.data a.socketId.data then false
  else if a.prio < b.prio then true
  else if b.prio < a.prio then false
  else if pyStrLt a.patternStr.data b.patternStr.data then true
  else if pyStrLt b.patternStr.data a.patternStr.data then false
  else !(pyStrLt (sendTypeStr b.sendType).data (sendTypeStr a.sendType).data)

/-- The endpoint set of a nodeset:
`set([j[0] for j in sublist])` in `_start_signal`. -/
def nodesetEndpoints (ns : List Subscription) : Finset String :=
  (ns.map (fun sub => sub.socketId)).toFinset

/-- SignalHandler registries: `open_requ_vari`, `open_requ_perm`,
`allowed_queries` and `next_requ_node` (lines 37-41). -/
structure SHState where
  openRequVari : List (List Subscription)
  openRequPerm : List (List Subscription)
  allowedQueries : List (List Subscription)
  nextRequNode : List Nat
deriving DecidableEq, Repr

/-- The SignalHandler starts with all four lists empty. -/
def initState : SHState := ⟨[], [], [], []⟩

/-! ### START admission (`_start_signal`, lines 422-535) -/

/-- Result of `_start_signal` / `_stop_signal` on the three in-place
updated lists (absent lists are `none`, mirroring the `None` arguments). -/
structure RegistryUpdate where
  registeredIds : List (List Subscription)
  variRequests : Option (List (List Subscription))
  permRequests : Option (List Nat)
deriving Repr

/-- The `overwrite_index` loop of `_start_signal` (lines 472-490): the last
registered endpoint set that is a subset or superset of the new one wins,
located with Python `list.index` (first position of an equal element).
An overlapping-but-not-nested set only produces a log message and leaves
`overwrite_index` untouched. -/
def overwriteIndex (flat : List (Finset String)) (newFlat : Finset String) : Option Nat :=
  flat.foldl
    (fun acc f => if newFlat ⊆ f ∨ f ⊆ newFlat then some (flat.indexOf f) else acc)
    none

/-- The fqdn-converted, regex-converted, `send_type`-extended entries of
one START request (lines 443-454 and 499-516). -/
def convSubs (fqdn : String → String) (sendType : SendType)
    (socketIds : List SockConf) : List Subscription :=
  socketIds.map (fun sc =>
    { socketId := fqdn sc.socketId
      prio := sc.prio
      patternStr := convertSuffixListToRegex sc.pattern
      sendType := sendType })

/-- `_start_signal` (lines 422-535).  `fqdn` is the missing
`utils.convert_socket_to_fqdn`; suffix lists are converted to regex
strings; the new nodeset (each entry extended by `send_type`) is sorted;
if its endpoint set is nested with a registered one that nodeset is
replaced and its cursor / pending list reset, otherwise the new nodeset is
appended.  The confirmation reply (the echoed signal) is unconditional. -/
def startSignal (fqdn : String → String) (sendType : SendType)
    (socketIds : List SockConf)
    (registeredIds : List (List Subscription))
    (variRequests : Option (List (List Subscription)))
    (permRequests : Option (List Nat)) : RegistryUpdate :=
  let ids := convSubs fqdn sendType socketIds
  let flat := registeredIds.map nodesetEndpoints
  let newFlat : Finset String := nodesetEndpoints ids
  let newSet := List.insertionSort (fun a b => subLe a b = true) ids
  match overwriteIndex flat newFlat with
  | some i =>
    { registeredIds := registeredIds.set i newSet
      variRequests := variRequests.map (fun v => v.set i [])
      permRequests := permRequests.map (fun p => p.set i 0) }
  | none =>
    { registeredIds := registeredIds ++ [newSet]
      variRequests := variRequests.map (fun v => v ++ [[]])
      permRequests := permRequests.map (fun p => p ++ [0]) }

/-! ### STOP (`_stop_signal`, lines 578-689) -/

/-- One pass of the `for element in to_remove` body (lines 632-676):
filter the element's socket id out of every pending query list, then
remove the entry from the nodeset containing it; an emptied nodeset is
deleted together with its cursor / pending list, otherwise the cursor is
re-normalised modulo the shrunken size. -/
def removeElement (upd : RegistryUpdate) (e : Subscription) : RegistryUpdate :=
  let vari := upd.variRequests.map (fun v =>
    v.map (fun oq => oq.filter (fun sub => sub.socketId ≠ e.socketId)))
  match upd.registeredIds.findIdx? (fun ns => e ∈ ns) with
  | none => { upd with variRequests := vari }
  | some i =>
    let ns := (upd.registeredIds.getD i []).erase e
    if ns.isEmpty then
      { registeredIds := (upd.registeredIds.set i ns).eraseIdx i
        variRequests := vari.map (fun v => v.eraseIdx i)
        permRequests := upd.permRequests.map (fun p => p.eraseIdx i) }
    else
      { registeredIds := upd.registeredIds.set i ns
        variRequests := vari
        permRequests := upd.permRequests.map (fun p =>
          p.set i (p.getD i 0 % ns.length)) }

/-- `_stop_signal` (lines 578-689).  Returns whether any matching
registration was found (`False` answers `NO_OPEN_CONNECTION_FOUND`)
together with the updated lists.  `to_remove` collects, per requested
socket id, every registered entry with that id, across all nodesets. -/
def stopSignal (fqdn : String → String) (socketIds : List SockConf)
    (registeredIds : List (List Subscription))
    (variRequests : Option (List (List Subscription)))
    (permRequests : Option (List Nat)) : Bool × RegistryUpdate :=
  let ids := socketIds.map (fun sc => fqdn sc.socketId)
  let toRemove := ids.flatMap (fun sid =>
    registeredIds.flatMap (fun ns => ns.filter (fun r => r.socketId = sid)))
  if toRemove.isEmpty then
    (false, ⟨registeredIds, variRequests, permRequests⟩)
  else
    (true, toRemove.foldl removeElement ⟨registeredIds, variRequests, permRequests⟩)

/-! ### GET_REQUESTS (run loop, lines 203-267) -/

/-- An emitted `[socket_id, prio, send_type]` triple. -/
abbrev Emit := String × Nat × SendType

/-- The stream-registry loop: for each nonempty nodeset the member at the
current cursor is tested; on a match it is emitted and the cursor advances
modulo the nodeset size, otherwise nothing happens for this nodeset.
A cursor list shorter than the registry cannot occur in reachable states
(Python would raise IndexError); it is modelled as an empty remainder. -/
def streamLoop (compile : String → String → Bool) (filename : String) :
    List (List Subscription) → List Nat → List Emit × List Nat
  | [], cs => ([], cs)
  | _ :: _, [] => ([], [])
  | rs :: rest, c :: cs =>
    let r := streamLoop compile filename rest cs
    if rs.isEmpty then (r.1, c :: r.2)
    else
      match rs[c]? with
      | none => (r.1, c :: r.2)
      | some sub =>
        if compile sub.patternStr filename then
          ((sub.socketId, sub.prio, sub.sendType) :: r.1, ((c + 1) % rs.length) :: r.2)
        else (r.1, c :: r.2)

/-- The query-registry loop: a nodeset with a matching head-of-queue entry
pops and emits it. -/
def variLoop (compile : String → String → Bool) (filename : String) :
    List (List Subscription) → List Emit × List (List Subscription)
  | [] => ([], [])
  | q :: rest =>
    let r := variLoop compile filename rest
    match q with
    | [] => (r.1, [] :: r.2)
    | h :: t =>
      if compile h.patternStr filename then
        ((h.socketId, h.prio, h.sendType) :: r.1, t :: r.2)
      else (r.1, (h :: t) :: r.2)

/-- Reply to a GET_REQUESTS query: the JSON list of emitted triples, or
the sentinel `["None"]` when nothing matched. -/
inductive GetReply
  | requests (rs : List Emit)
  | noneSentinel
deriving DecidableEq, Repr

/-- The complete GET_REQUESTS handler (lines 203-267): stream emissions
first, then query emissions, sentinel when both are empty. -/
def getRequests (compile : String → String → Bool) (filename : String)
    (s : SHState) : GetReply × SHState :=
  let p := streamLoop compile filename s.openRequPerm s.nextRequNode
  let v := variLoop compile filename s.openRequVari
  let all := p.1 ++ v.1
  (if all.isEmpty then .noneSentinel else .requests all,
   { s with nextRequNode := p.2, openRequVari := v.2 })

/-! ### NEXT / CANCEL (run loop, lines 293-334) -/

/-- `NEXT <endpoint>`: every entry of every query nodeset whose socket id
equals the (fqdn-converted) endpoint is appended to that nodeset's pending
list. -/
def nextRequest (fqdn : String → String) (endpoint : String) (s : SHState) : SHState :=
  let id := fqdn endpoint
  let vari := List.zipWith (fun aq vq => vq ++ aq.filter (fun sub => sub.socketId == id))
    s.allowedQueries s.openRequVari
  { s with openRequVari := vari }

/-- `CANCEL <endpoint>`: all pending entries for the endpoint are removed
from every query nodeset. -/
def cancelRequest (fqdn : String → String) (endpoint : String) (s : SHState) : SHState :=
  let id := fqdn endpoint
  { s with openRequVari :=
      s.openRequVari.map (fun vq => vq.filter (fun sub => sub.socketId != id)) }

/-! ### Signal messages (`check_signal_inverted` lines 366-410,
`react_to_signal` lines 691-824) -/

/-- A single multipart reply on the com socket (`send_response` is called
exactly once per handled message). -/
inductive Reply
  | ack (signal : String)
  | versionAnswer (signal : String) (version : String)
  | versionConflict (version : String)
  | noValidSignal
  | noValidHost
  | storingDisabled (version : String)
  | noOpenConnectionFound
deriving DecidableEq, Repr

/-- An incoming message on the com socket.  `malformed` covers a frame
count other than three and any decode failure inside the `try` block of
`check_signal_inverted` (both answered by `NO_VALID_SIGNAL`). -/
inductive InMessage
  | malformed
  | valid (version : String) (signal : String) (targets : List SockConf)

/-- Environment of the handler: the missing `utils` helpers
(`convert_socket_to_fqdn`, regex engine), the whitelist, the
`store_data` flag and the local `__version__` string (the `_version`
module is not in the repository snapshot). -/
structure Env where
  fqdn : String → String
  compile : String → String → Bool
  whitelist : List String
  storeData : Bool
  localVer : String

/-- Strip a trailing `.desy.de` (helpers.py checkHost).  Implemented on
the character list so that the kernel can evaluate it. -/
def stripDesy (h : String) : String :=
  if h.data.reverse.take 8 = ".desy.de".data.reverse then
    ⟨h.data.take (h.data.length - 8)⟩
  else h

/-- `checkHost` from src/src/shared/helpers.py lines 221-249 (list branch),
modelling the missing `utils.check_host`: every peer host must appear in
the whitelist, either verbatim or with `.desy.de` stripped; an empty host
list or empty whitelist refuses. -/
def checkHost (hosts whitelist : List String) : Bool :=
  if hosts.isEmpty || whitelist.isEmpty then false
  else hosts.all (fun h => whitelist.contains h || whitelist.contains (stripDesy h))

/-- The host part of a `host:port` socket id
(`t[0].split(":")[0]`: the characters before the first colon). -/
def hostOf (sc : SockConf) : String := ⟨sc.socketId.data.takeWhile (fun c => c ≠ ':')⟩

/-- Result of `check_signal_inverted`. -/
inductive CheckResult
  | failed (r : Reply)
  | passed (signal : String) (targets : List SockConf)

/-- `check_signal_inverted` (lines 366-410): malformed messages answer
`NO_VALID_SIGNAL`; a nonempty version whose major+minor differs answers
`VERSION_CONFLICT`; a host outside the whitelist answers `NO_VALID_HOST`
(the host check is skipped for an empty signal or empty target list,
mirroring `if signal and host:`). -/
def checkSignalInverted (env : Env) : InMessage → CheckResult
  | .malformed => .failed .noValidSignal
  | .valid version signal targets =>
    let targets := targets.map (fun sc => { sc with socketId := env.fqdn sc.socketId })
    let hosts := targets.map hostOf
    if version ≠ "" ∧ checkVersion version.data env.localVer.data = false then
      .failed (.versionConflict env.localVer)
    else if signal ≠ "" ∧ ¬ hosts.isEmpty ∧ checkHost hosts env.whitelist = false then
      .failed .noValidHost
    else
      .passed signal targets

/-- Result of handling one com-socket message: the single reply, the new
registry state, and the optional `CLOSE_SOCKETS` publication. -/
structure HandleResult where
  reply : Reply
  state : SHState
  closeSockets : Option (List SockConf)
deriving Repr

/-- `react_to_signal` (lines 691-824). -/
def reactToSignal (env : Env) (signal : String) (targets : List SockConf)
    (s : SHState) : HandleResult :=
  if signal = "GET_VERSION" then
    ⟨.versionAnswer signal env.localVer, s, none⟩
  else if signal = "START_STREAM" then
    let r := startSignal env.fqdn .data targets s.openRequPerm none (some s.nextRequNode)
    ⟨.ack signal,
     { s with openRequPerm := r.registeredIds
              nextRequNode := r.permRequests.getD s.nextRequNode }, none⟩
  else if signal = "START_STREAM_METADATA" then
    if !env.storeData then ⟨.storingDisabled env.localVer, s, none⟩
    else
      let r := startSignal env.fqdn .metadata targets s.openRequPerm none (some s.nextRequNode)
      ⟨.ack signal,
       { s with openRequPerm := r.registeredIds
                nextRequNode := r.permRequests.getD s.nextRequNode }, none⟩
  else if signal = "STOP_STREAM" ∨ signal = "STOP_STREAM_METADATA" then
    let r := stopSignal env.fqdn targets s.openRequPerm none (some s.nextRequNode)
    if r.1 then
      ⟨.ack signal,
       { s with openRequPerm := r.2.registeredIds
                nextRequNode := r.2.permRequests.getD s.nextRequNode },
       some targets⟩
    else ⟨.noOpenConnectionFound, s, none⟩
  else if signal = "START_QUERY_NEXT" then
    let r := startSignal env.fqdn .data targets s.allowedQueries (some s.openRequVari) none
    ⟨.ack signal,
     { s with allowedQueries := r.registeredIds
              openRequVari := r.variRequests.getD s.openRequVari }, none⟩
  else if signal = "START_QUERY_METADATA" then
    if !env.storeData then ⟨.storingDisabled env.localVer, s, none⟩
    else
      let r := startSignal env.fqdn .metadata targets s.allowedQueries (some s.openRequVari) none
      ⟨.ack signal,
       { s with allowedQueries := r.registeredIds
                openRequVari := r.variRequests.getD s.openRequVari }, none⟩
  else if signal = "STOP_QUERY_NEXT" ∨ signal = "STOP_QUERY_METADATA" then
    let r := stopSignal env.fqdn targets s.allowedQueries (some s.openRequVari) none
    if r.1 then
      ⟨.ack signal,
       { s with allowedQueries := r.2.registeredIds
                openRequVari := r.2.variRequests.getD s.openRequVari },
       some targets⟩
    else ⟨.noOpenConnectionFound, s, none⟩
  else
    ⟨.noValidSignal, s, none⟩

/-- The complete com-socket handler: validation, then reaction.  It is a
total function: a malformed peer message produces a single error reply and
never an exception, so the SignalHandler loop keeps running. -/
def handleCom (env : Env) (m : InMessage) (s : SHState) : HandleResult :=
  match checkSignalInverted env m with
  | .failed r => ⟨r, s, none⟩
  | .passed signal targets => reactToSignal env signal targets s

/-! ### Event traces over the SignalHandler loop -/

/-- The externally triggered events the run loop reacts to. -/
inductive Event
  | com (m : InMessage)
  | next (endpoint : String)
  | cancel (endpoint : String)
  | getRequests (filename : String)

/-- One loop iteration: the successor state plus the stream and query
emissions (nonempty only for GET_REQUESTS). -/
def step (env : Env) (ev : Event) (s : SHState) : SHState × (List Emit × List Emit) :=
  match ev with
  | .com m => ((handleCom env m s).state, ([], []))
  | .next ep => (nextRequest env.fqdn ep s, ([], []))
  | .cancel ep => (cancelRequest env.fqdn ep s, ([], []))
  | .getRequests f =>
    let p := streamLoop env.compile f s.openRequPerm s.nextRequNode
    let v := variLoop env.compile f s.openRequVari
    ({ s with nextRequNode := p.2, openRequVari := v.2 }, (p.1, v.1))

/-- Run a trace of events. -/
def run (env : Env) (s : SHState) : List Event → SHState
  | [] => s
  | ev :: evs => run env ((step env ev s).1) evs

/-! ## Data fetcher (src/src/sender/datafetchers/file_fetcher.py) and
send helpers (src/src/sender/dataFetchers/send_helpers.py)

File contents are byte lists (`List Nat`); `open(...).read(chunksize)` is
`take`/`drop`.  Transport outcomes of `socket.send_multipart` and the zmq
message tracker are oracles (`ok`, `trackerDone`): the zmq library is
external to the repository. -/

/-- One entry of a work item's target list: `[<host>:<port>, <prio>,
<data|metadata>]` as iterated by `__sendToTargets`. -/
structure Target where
  socketId : String
  prio : Nat
  sendType : SendType
deriving DecidableEq, Repr

/-- `remove_data` configuration value (True / False /
"with_confirmation"). -/
inductive RemoveData
  | yes
  | no
  | withConfirmation
deriving DecidableEq, Repr

/-- Python truthiness of the `remove_data` value (`False` is falsy,
`True` and the nonempty string "with_confirmation" are truthy). -/
def RemoveData.truthy : RemoveData → Bool
  | .no => false
  | _ => true

/-- Fetcher configuration slice used by `send_data` / `finish`. -/
structure FetcherConfig where
  storeData : Bool
  removeData : RemoveData
  chunksize : Nat
deriving DecidableEq, Repr

/-- An event record handed to `get_metadata`. -/
structure EventRecord where
  filename : String
  sourcePath : String
  relativePath : String
deriving DecidableEq, Repr

/-- The `os.stat` result of the source file at fetch time
(`st_mtime`/`st_ctime` are embedded as integers). -/
structure FileStat where
  filesize : Nat
  fileModTime : Int
  fileCreateTime : Int
deriving DecidableEq, Repr

/-- The metadata dictionary after `get_metadata` filled in the stat
fields (lines 86-121). -/
structure FileMeta where
  filename : String
  sourcePath : String
  relativePath : String
  filesize : Nat
  fileModTime : Int
  fileCreateTime : Int
  chunksize : Nat
deriving DecidableEq, Repr

/-- `get_metadata` (lines 52-121): the stat fields are only added when the
target list is nonempty (`if targets:`); the fetcher raises otherwise
untouched metadata, modelled as `none`. -/
def getMetadata (targets : List Target) (ev : EventRecord) (stat : FileStat)
    (chunksize : Nat) : Option FileMeta :=
  if targets.isEmpty then none
  else
    some { filename := ev.filename
           sourcePath := ev.sourcePath
           relativePath := ev.relativePath
           filesize := stat.filesize
           fileModTime := stat.fileModTime
           fileCreateTime := stat.fileCreateTime
           chunksize := chunksize }

/-- Header of one chunk message: the copied metadata dictionary plus
`chunk_number`. -/
structure ChunkHeader where
  meta : FileMeta
  chunkNumber : Nat
deriving DecidableEq, Repr

/-- One two-frame chunk message `[header-json, payload]`. -/
structure ChunkMsg where
  header : ChunkHeader
  payload : List Nat
deriving DecidableEq, Repr

/-- Chunk loop with explicit fuel (structural recursion so that the
kernel can evaluate it; the fuel never runs out, see
`buildChunksGo_fuel`). -/
def buildChunksGo (meta : FileMeta) : Nat → List Nat → Nat → List ChunkMsg
  | 0, _, _ => []
  | fuel + 1, content, n =>
    if meta.chunksize = 0 ∨ content = [] then []
    else
      ⟨⟨meta, n⟩, content.take meta.chunksize⟩ ::
        buildChunksGo meta fuel (content.drop meta.chunksize) (n + 1)

/-- The `while True: read(chunksize)` loop of `send_data` (lines 157-196):
successive chunks of the file, ending at the first empty read.  A zero
`chunksize` reads `b""` immediately and produces no chunks, exactly like
Python `file.read(0)`. -/
def buildChunks (meta : FileMeta) (content : List Nat) (n : Nat) : List ChunkMsg :=
  buildChunksGo meta content.length content n

/-- A blocking wait executed on a zmq message tracker: `tracker.wait()`
has no time bound, `tracker.wait(t)` waits at most `t` seconds. -/
inductive WaitOp
  | unbounded
  | bounded (seconds : Nat)
deriving DecidableEq, Repr

/-- Whether a tracker wait has a time bound. -/
def WaitOp.isBounded : WaitOp → Bool
  | .unbounded => false
  | .bounded _ => true

/-- The exception leaving `__sendToTargets`: `DataHandlingError` is raised
on any priority-0 failure (socket creation, send, or tracking); failures
on the unguarded priority>0 path propagate as raw zmq exceptions. -/
inductive SendErr
  | dataHandling
  | other
deriving DecidableEq, Repr

/-- Result of one `__sendToTargets` call for one chunk: the targets
actually delivered to (in order), the tracker waits performed, and the
exception that aborted the loop, if any. -/
structure SendChunkResult where
  delivered : List String
  waits : List WaitOp
  err : Option SendErr
deriving DecidableEq, Repr

/-- `__sendToTargets` (src/src/sender/dataFetchers/send_helpers.py lines
11-81) for one chunk `chunkNo`: priority-0 targets use a tracked send and,
when the tracker is not immediately done, an unbounded `tracker.wait()`;
any priority-0 failure raises `DataHandlingError`.  Priority>0 targets use
a fire-and-forget `send_multipart(..., NOBLOCK)`; its failure raises a raw
exception.  Either exception aborts the loop, skipping the remaining
targets of this chunk.  `ok t n` tells whether the transport accepted the
send of chunk `n` to target `t`; `trackerDone t n` whether the tracker was
already done when polled. -/
def sendToTargets (ok : String → Nat → Bool) (trackerDone : String → Nat → Bool)
    (chunkNo : Nat) : List Target → SendChunkResult
  | [] => ⟨[], [], none⟩
  | t :: rest =>
    if t.prio = 0 then
      if ok t.socketId chunkNo then
        let waits : List WaitOp :=
          if trackerDone t.socketId chunkNo then [] else [.unbounded]
        let r := sendToTargets ok trackerDone chunkNo rest
        ⟨t.socketId :: r.delivered, waits ++ r.waits, r.err⟩
      else ⟨[], [], some .dataHandling⟩
    else
      if ok t.socketId chunkNo then
        let r := sendToTargets ok trackerDone chunkNo rest
        ⟨t.socketId :: r.delivered, r.waits, r.err⟩
      else ⟨[], [], some .other⟩

/-- Result of `send_data`: the chunk messages built, the per-chunk send
results, the `send_error` flag and the final `remove_flag`. -/
structure SendDataResult where
  msgs : List ChunkMsg
  chunkResults : List SendChunkResult
  sendError : Bool
  removeFlag : Bool
deriving DecidableEq, Repr

/-- `send_data` (lines 123-217).  No targets, or no data-mode targets:
`remove_flag` is set and nothing is sent.  Otherwise every chunk is sent
to the data targets; a `DataHandlingError` (priority-0 failure) sets
`send_error`, any other per-chunk exception is only logged, and the loop
always continues with the next chunk.  Afterwards `remove_flag` stays
`False` under `with_confirmation` and is set iff no send error
otherwise. -/
def sendData (ok : String → Nat → Bool) (trackerDone : String → Nat → Bool)
    (cfg : FetcherConfig) (targets : List Target) (meta : FileMeta)
    (content : List Nat) : SendDataResult :=
  if targets.isEmpty then ⟨[], [], false, true⟩
  else
    let targetsData := targets.filter (fun t => t.sendType = SendType.data)
    if targetsData.isEmpty then ⟨[], [], false, true⟩
    else
      let msgs := buildChunks meta content 0
      let results := msgs.map (fun m => sendToTargets ok trackerDone m.header.chunkNumber targetsData)
      let sendError := results.any (fun r => r.err = some SendErr.dataHandling)
      let removeFlag :=
        if cfg.removeData = RemoveData.withConfirmation then false
        else !sendError
      ⟨msgs, results, sendError, removeFlag⟩

/-- The local store/remove decision of `finish` (lines 273-314). -/
inductive FinishAction
  | move
  | copy
  | remove
  | keep
deriving DecidableEq, Repr

/-- `finish` (lines 273-314): move when storing and removing are both
requested and the file may be removed; otherwise copy whenever storing is
requested (regardless of `remove_flag`); otherwise remove when removal is
requested and the file may be removed; otherwise keep. -/
def finishAction (cfg : FetcherConfig) (removeFlag : Bool) : FinishAction :=
  if cfg.storeData ∧ cfg.removeData.truthy ∧ removeFlag then .move
  else if cfg.storeData then .copy
  else if cfg.removeData.truthy ∧ removeFlag then .remove
  else .keep

/-! ## Supervisor liveness probe
(src/src/sender/datamanager.py, test_fixed_streaming_host, lines 515-568) -/

/-- `test_fixed_streaming_host`: with the data stream disabled the probe
trivially succeeds.  On zmq versions above 14.5.0 the ALIVE_TEST send is
tracked and waits at most 2 seconds (`tracker.wait(2)`); a tracker that is
still incomplete after the bounded wait fails the probe. -/
def testFixedStreamingHost (useDataStream zmqOld socketOk sendOk doneNow doneAfter2 : Bool) :
    Bool × List WaitOp :=
  if !useDataStream then (true, [])
  else if !socketOk then (false, [])
  else if zmqOld then (sendOk, [])
  else if !sendOk then (false, [])
  else if doneNow then (true, [])
  else (doneAfter2, [.bounded 2])

/-! ## Confirmation-gated deletion (Cleaner) -/

/-- Modelled from the spec: the confirmation record kept by the Cleaner
per file identifier — "file identifier → {chunks_seen: set, total_chunks:
int}" (spec §3); the in-repository src/src/sender/Cleaner.py is the
legacy mover without confirmation handling, the confirmation-counting
Cleaner of spec §4.5 is not part of the snapshot. -/
structure ConfRecord where
  seen : Finset Nat
  total : Nat
deriving DecidableEq

/-- Cleaner events: a dispatcher registers a file with its expected chunk
count; a consumer confirms one chunk. -/
inductive CleanEvent
  | register (id : String) (total : Nat)
  | confirm (id : String) (chunk : Nat)

/-- Modelled from the spec: the Cleaner table, file identifier keyed. -/
abbrev CleanerState := List (String × ConfRecord)

/-- Modelled from the spec (§4.5, I5, P4): a registration opens a record;
a confirmation adds the chunk to `chunks_seen`; when every chunk below
`total_chunks` has been seen the source file is deleted (the returned
identifier) and the record dropped.  Deletion happens in no other case. -/
def cleanerStep (s : CleanerState) : CleanEvent → CleanerState × Option String
  | .register id total => ((id, ⟨∅, total⟩) :: s.filter (fun p => p.1 ≠ id), none)
  | .confirm id chunk =>
    match s.find? (fun p => p.1 = id) with
    | none => (s, none)
    | some (_, rec0) =>
      let rec1 : ConfRecord := ⟨insert chunk rec0.seen, rec0.total⟩
      if (List.range rec1.total).all (fun c => c ∈ rec1.seen) then
        (s.filter (fun p => p.1 ≠ id), some id)
      else
        (s.map (fun p => if p.1 = id then (id, rec1) else p), none)

/-- Trace run of the Cleaner, collecting the deletions in order. -/
def cleanerRun (s : CleanerState) : List CleanEvent → CleanerState × List String
  | [] => (s, [])
  | ev :: evs =>
    let r := cleanerStep s ev
    let rest := cleanerRun r.1 evs
    (rest.1, (r.2.toList) ++ rest.2)

/-! ## Theorems -/

/-! ### C8 — version handshake -/

/-- C8: the version handshake admits a peer iff the two version strings
agree on all components except the last one; an incompatible peer is
answered with a single `VERSION_CONFLICT` reply carrying the sender's own
version and the registries are untouched. -/
theorem c8_version_handshake (v l : List Char) (hv : '.' ∈ v) (hl : '.' ∈ l) :
    (checkVersion v l = true ↔
      (splitOnDot v).dropLast = (splitOnDot l).dropLast) ∧
    (∀ (env : Env) (signal : String) (targets : List SockConf) (s : SHState),
      env.localVer = ⟨l⟩ → checkVersion v l = false →
      handleCom env (.valid ⟨v⟩ signal targets) s =
        ⟨.versionConflict env.localVer, s, none⟩) := by
  constructor
  · rw [checkVersion_eq_true_iff, rsplitHead_eq_joinDot_dropLast v hv,
        rsplitHead_eq_joinDot_dropLast l hl]
    have hdl : ∀ (s : List Char), '.' ∈ s → (splitOnDot s).dropLast ≠ [] := by
      intro s hs hcon
      have h2 := splitOnDot_length_ge_two s hs
      have := List.length_dropLast (splitOnDot s)
      rw [hcon] at this
      simp at this
      omega
    have hnd : ∀ (s : List Char), ∀ p ∈ (splitOnDot s).dropLast, '.' ∉ p := by
      intro s p hp
      exact splitOnDot_no_dot s p (List.dropLast_subset _ hp)
    constructor
    · intro h
      have := congrArg splitOnDot h
      rwa [splitOnDot_joinDot _ (hdl v hv) (hnd v),
           splitOnDot_joinDot _ (hdl l hl) (hnd l)] at this
    · intro h
      exact congrArg joinDot h
  · intro env signal targets s hloc hbad
    have hvne : (⟨v⟩ : String) ≠ "" := by
      intro hcon
      have : v = [] := congrArg String.data hcon
      rw [this] at hv
      simp at hv
    have hcond : (⟨v⟩ : String) ≠ "" ∧
        checkVersion (String.data ⟨v⟩) env.localVer.data = false := by
      refine ⟨hvne, ?_⟩
      rw [hloc]
      exact hbad
    simp only [handleCom, checkSignalInverted]
    rw [if_pos hcond]

/-- C8 witness: versions 4.0.9 and 4.0.1 differ only in the last
component and are accepted. -/
theorem c8_version_handshake_witness :
    checkVersion "4.0.9".data "4.0.1".data = true :=
  ((c8_version_handshake "4.0.9".data "4.0.1".data (by decide) (by decide)).1).mpr
    (by decide)

/-! ### C5 — chunked file send -/

/-- The fuel is irrelevant as soon as it covers the content length. -/
theorem buildChunksGo_irrel (meta : FileMeta) :
    ∀ (f1 f2 : Nat) (content : List Nat) (n : Nat),
      content.length ≤ f1 → content.length ≤ f2 →
      buildChunksGo meta f1 content n = buildChunksGo meta f2 content n := by
  intro f1
  induction f1 with
  | zero =>
    intro f2 content n h1 _
    have hc : content = [] := List.eq_nil_of_length_eq_zero (Nat.le_zero.mp h1)
    subst hc
    cases f2 <;> simp [buildChunksGo]
  | succ f1 ih =>
    intro f2 content n h1 h2
    cases f2 with
    | zero =>
      have hc : content = [] := List.eq_nil_of_length_eq_zero (Nat.le_zero.mp h2)
      subst hc
      simp [buildChunksGo]
    | succ f2 =>
      by_cases hcond : meta.chunksize = 0 ∨ content = []
      · simp only [buildChunksGo, if_pos hcond]
      · push_neg at hcond
        have hpos : 0 < meta.chunksize := Nat.pos_of_ne_zero hcond.1
        have hlen0 : content.length ≠ 0 := by
          intro hc; exact hcond.2 (List.eq_nil_of_length_eq_zero hc)
        simp only [buildChunksGo, if_neg (not_or.mpr ⟨hcond.1, hcond.2⟩)]
        congr 1
        apply ih
        · rw [List.length_drop]; omega
        · rw [List.length_drop]; omega

/-- One unfolding of the chunk loop. -/
theorem buildChunks_unfold (meta : FileMeta) (content : List Nat) (n : Nat) :
    buildChunks meta content n =
      if meta.chunksize = 0 ∨ content = [] then []
      else ⟨⟨meta, n⟩, content.take meta.chunksize⟩ ::
        buildChunks meta (content.drop meta.chunksize) (n + 1) := by
  by_cases h : meta.chunksize = 0 ∨ content = []
  · rw [if_pos h]
    unfold buildChunks
    rcases hlen : content.length with _ | L
    · rfl
    · simp only [buildChunksGo, if_pos h]
  · rw [if_neg h]
    push_neg at h
    have hpos : 0 < meta.chunksize := Nat.pos_of_ne_zero h.1
    have hlen0 : content.length ≠ 0 := by
      intro hc; exact h.2 (List.eq_nil_of_length_eq_zero hc)
    unfold buildChunks
    rcases hlen : content.length with _ | L
    · exact absurd hlen hlen0
    · simp only [buildChunksGo, if_neg (not_or.mpr ⟨h.1, h.2⟩)]
      congr 1
      apply buildChunksGo_irrel
      · rw [List.length_drop]; omega
      · exact le_rfl

theorem buildChunks_join (meta : FileMeta) (h : meta.chunksize ≠ 0)
    (content : List Nat) (n : Nat) :
    ((buildChunks meta content n).map (fun m => m.payload)).flatten = content := by
  generalize hlen : content.length = L
  induction L using Nat.strong_induction_on generalizing content n with
  | _ L ih =>
    rw [buildChunks_unfold]
    by_cases hc : content = []
    · simp [hc]
    · rw [if_neg (by simp [h, hc])]
      have hpos : 0 < meta.chunksize := Nat.pos_of_ne_zero h
      have hclen : content.length ≠ 0 := by
        intro hcon; exact hc (List.eq_nil_of_length_eq_zero hcon)
      have hdrop : (content.drop meta.chunksize).length < L := by
        rw [List.length_drop]
        omega
      simp only [List.map_cons, List.flatten_cons]
      rw [ih _ hdrop _ (n + 1) rfl]
      exact List.take_append_drop _ _

theorem buildChunks_numbers (meta : FileMeta) (content : List Nat) (n : Nat) :
    (buildChunks meta content n).map (fun m => m.header.chunkNumber) =
      List.range' n (buildChunks meta content n).length := by
  generalize hlen : content.length = L
  induction L using Nat.strong_induction_on generalizing content n with
  | _ L ih =>
    rw [buildChunks_unfold]
    by_cases hcond : meta.chunksize = 0 ∨ content = []
    · simp [hcond]
    · rw [if_neg hcond]
      push_neg at hcond
      have hpos : 0 < meta.chunksize := Nat.pos_of_ne_zero hcond.1
      have hclen : content.length ≠ 0 := by
        intro hc; exact hcond.2 (List.eq_nil_of_length_eq_zero hc)
      have hdrop : (content.drop meta.chunksize).length < L := by
        rw [List.length_drop]
        omega
      simp only [List.map_cons, List.length_cons]
      rw [ih _ hdrop _ (n + 1) rfl, List.range'_succ]

theorem buildChunks_payload_bounds (meta : FileMeta) (content : List Nat) (n : Nat) :
    ∀ m ∈ buildChunks meta content n,
      m.payload ≠ [] ∧ m.payload.length ≤ meta.chunksize := by
  generalize hlen : content.length = L
  induction L using Nat.strong_induction_on generalizing content n with
  | _ L ih =>
    rw [buildChunks_unfold]
    by_cases hcond : meta.chunksize = 0 ∨ content = []
    · simp [hcond]
    · rw [if_neg hcond]
      push_neg at hcond
      have hpos : 0 < meta.chunksize := Nat.pos_of_ne_zero hcond.1
      have hclen : content.length ≠ 0 := by
        intro hc; exact hcond.2 (List.eq_nil_of_length_eq_zero hc)
      intro m hm
      rcases List.mem_cons.mp hm with hm | hm
      · subst hm
        constructor
        · simp only [ne_eq, List.take_eq_nil_iff]
          push_neg
          exact ⟨fun hcs => absurd hcs hcond.1, hcond.2⟩
        · simp [List.length_take_le]
      · have hdrop : (content.drop meta.chunksize).length < L := by
          rw [List.length_drop]
          omega
        exact ih _ hdrop _ (n + 1) rfl m hm

theorem buildChunks_full_chunks (meta : FileMeta) (content : List Nat) (n : Nat) :
    ∀ m ∈ (buildChunks meta content n).dropLast,
      m.payload.length = meta.chunksize := by
  generalize hlen : content.length = L
  induction L using Nat.strong_induction_on generalizing content n with
  | _ L ih =>
    rw [buildChunks_unfold]
    by_cases hcond : meta.chunksize = 0 ∨ content = []
    · simp [hcond]
    · rw [if_neg hcond]
      push_neg at hcond
      have hpos : 0 < meta.chunksize := Nat.pos_of_ne_zero hcond.1
      have hclen : content.length ≠ 0 := by
        intro hc; exact hcond.2 (List.eq_nil_of_length_eq_zero hc)
      have hdrop : (content.drop meta.chunksize).length < L := by
        rw [List.length_drop]
        omega
      intro m hm
      rcases hrest : buildChunks meta (content.drop meta.chunksize) (n + 1) with _ | ⟨r, rs⟩
      · rw [hrest] at hm
        simp at hm
      · rw [hrest] at hm
        rw [List.dropLast_cons_of_ne_nil (by simp)] at hm
        rcases List.mem_cons.mp hm with hm | hm
        · subst hm
          -- the remainder produced further chunks, so the drop was nonempty
          have hdropne : content.drop meta.chunksize ≠ [] := by
            intro hdn
            rw [buildChunks_unfold, if_pos (Or.inr hdn)] at hrest
            exact absurd hrest.symm (by simp)
          have : meta.chunksize < content.length := by
            by_contra hle
            push_neg at hle
            exact hdropne (List.drop_eq_nil_of_le hle)
          simp only [List.length_take]
          omega
        · have := ih _ hdrop _ (n + 1) rfl m
          rw [hrest] at this
          exact this hm

theorem buildChunks_header_meta (meta : FileMeta) (content : List Nat) (n : Nat) :
    ∀ m ∈ buildChunks meta content n, m.header.meta = meta := by
  generalize hlen : content.length = L
  induction L using Nat.strong_induction_on generalizing content n with
  | _ L ih =>
    rw [buildChunks_unfold]
    by_cases hcond : meta.chunksize = 0 ∨ content = []
    · simp [hcond]
    · rw [if_neg hcond]
      push_neg at hcond
      have hpos : 0 < meta.chunksize := Nat.pos_of_ne_zero hcond.1
      have hclen : content.length ≠ 0 := by
        intro hc; exact hcond.2 (List.eq_nil_of_length_eq_zero hc)
      have hdrop : (content.drop meta.chunksize).length < L := by
        rw [List.length_drop]
        omega
      intro m hm
      rcases List.mem_cons.mp hm with hm | hm
      · subst hm; rfl
      · exact ih _ hdrop _ (n + 1) rfl m hm

/-- C5: for every file sent (at least one data-mode target), the chunk
stream consists of `chunksize`-byte payloads except for the final chunk,
chunk numbers are `0, 1, 2, …` without gaps in send order, the payload
concatenation equals the file bytes, and every header carries the mtime
recorded by `get_metadata`. -/
theorem c5_chunked_send (ok trackerDone : String → Nat → Bool)
    (cfg : FetcherConfig) (targets : List Target) (ev : EventRecord)
    (stat : FileStat) (content : List Nat) (meta : FileMeta)
    (hmeta : getMetadata targets ev stat cfg.chunksize = some meta)
    (hcs : cfg.chunksize ≠ 0)
    (hdata : (targets.filter (fun t => t.sendType = SendType.data)).isEmpty = false) :
    ((((sendData ok trackerDone cfg targets meta content).msgs.map
        (fun m => m.payload)).flatten = content) ∧
     ((sendData ok trackerDone cfg targets meta content).msgs.map
        (fun m => m.header.chunkNumber) =
      List.range (sendData ok trackerDone cfg targets meta content).msgs.length)) ∧
    (∀ m ∈ (sendData ok trackerDone cfg targets meta content).msgs.dropLast,
      m.payload.length = cfg.chunksize) ∧
    (∀ m ∈ (sendData ok trackerDone cfg targets meta content).msgs,
      m.payload ≠ [] ∧ m.payload.length ≤ cfg.chunksize ∧
      m.header.meta.fileModTime = stat.fileModTime) := by
  have htne : targets.isEmpty = false := by
    rcases hT : targets.isEmpty with _ | _
    · rfl
    · exfalso
      have : targets = [] := List.isEmpty_iff.mp hT
      rw [this] at hdata
      simp [List.filter] at hdata
  have hmeta' : meta = ⟨ev.filename, ev.sourcePath, ev.relativePath,
      stat.filesize, stat.fileModTime, stat.fileCreateTime, cfg.chunksize⟩ := by
    unfold getMetadata at hmeta
    rw [htne] at hmeta
    simp at hmeta
    exact hmeta.symm
  have hmsgs : (sendData ok trackerDone cfg targets meta content).msgs =
      buildChunks meta content 0 := by
    unfold sendData
    rw [htne]
    simp only [Bool.false_eq_true, if_false]
    rw [hdata]
    simp
  have hmcs : meta.chunksize = cfg.chunksize := by rw [hmeta']
  have hmcs0 : meta.chunksize ≠ 0 := by rw [hmcs]; exact hcs
  refine ⟨⟨?_, ?_⟩, ?_, ?_⟩
  · rw [hmsgs]
    exact buildChunks_join meta hmcs0 content 0
  · rw [hmsgs, buildChunks_numbers]
    rw [List.range_eq_range']
  · intro m hm
    rw [hmsgs] at hm
    rw [← hmcs]
    exact buildChunks_full_chunks meta content 0 m hm
  · intro m hm
    rw [hmsgs] at hm
    have hb := buildChunks_payload_bounds meta content 0 m hm
    have hh := buildChunks_header_meta meta content 0 m hm
    refine ⟨hb.1, by rw [← hmcs]; exact hb.2, ?_⟩
    rw [hh, hmeta']

/-- C5 witness: a 25-byte file with chunksize 10 yields chunks of
10, 10 and 5 bytes, numbered 0, 1, 2, joining back to the file. -/
theorem c5_chunked_send_witness :
    (((sendData (fun _ _ => true) (fun _ _ => true) ⟨false, .no, 10⟩
        [⟨"t:1", 1, .data⟩]
        ⟨"f", "s", "r", 25, 111, 222, 10⟩ (List.range 25)).msgs.map
          (fun m => m.payload)).flatten = List.range 25) := by
  have h := c5_chunked_send (fun _ _ => true) (fun _ _ => true)
    ⟨false, .no, 10⟩ [⟨"t:1", 1, .data⟩] ⟨"f", "s", "r"⟩ ⟨25, 111, 222⟩
    (List.range 25) ⟨"f", "s", "r", 25, 111, 222, 10⟩
    (by decide) (by decide) (by decide)
  exact h.1.1

/-! ### C7 — tracked priority-0 sends and their waits -/

/-- C7 counterexample: the claim says every tracked priority-0 chunk send
waits only a bounded time; but a successful tracked send whose tracker is
not yet done performs the unbounded `tracker.wait()`, so the bounded-wait
property fails already for a single priority-0 target. -/
theorem c7_counterexample :
    ((sendToTargets (fun _ _ => true) (fun _ _ => false) 0
        [⟨"stream:1", 0, .data⟩]).waits.all WaitOp.isBounded) = false := by
  decide

/-- C7 (amended): the chunk-send path of `__sendToTargets` performs only
unbounded `tracker.wait()` calls — a priority-0 send whose tracker is
incomplete blocks without a time limit — while the bounded 2-second
tracker wait exists only in the supervisor's ALIVE_TEST probe
(`test_fixed_streaming_host`). -/
theorem c7_wait_discipline (ok trackerDone : String → Nat → Bool) (n : Nat)
    (ts : List Target) :
    (∀ w ∈ (sendToTargets ok trackerDone n ts).waits, w = WaitOp.unbounded) ∧
    (∀ u z sk so dn d2 : Bool,
      ∀ w ∈ (testFixedStreamingHost u z sk so dn d2).2, w = WaitOp.bounded 2) := by
  constructor
  · induction ts with
    | nil => intro w hw; simp [sendToTargets] at hw
    | cons t rest ih =>
      intro w hw
      simp only [sendToTargets] at hw
      by_cases hp : t.prio = 0
      · rw [if_pos hp] at hw
        by_cases hok : ok t.socketId n
        · rw [if_pos hok] at hw
          simp only at hw
          rcases List.mem_append.mp hw with hw | hw
          · by_cases hd : trackerDone t.socketId n
            · rw [if_pos hd] at hw; simp at hw
            · rw [if_neg hd] at hw
              simpa using hw
          · exact ih w hw
        · rw [if_neg hok] at hw
          simp at hw
      · rw [if_neg hp] at hw
        by_cases hok : ok t.socketId n
        · rw [if_pos hok] at hw
          exact ih w hw
        · rw [if_neg hok] at hw
          simp at hw
  · intro u z sk so dn d2 w hw
    unfold testFixedStreamingHost at hw
    split_ifs at hw <;> simp at hw
    exact hw

/-- C7 witness: the amended theorem at a concrete incomplete tracker. -/
theorem c7_wait_discipline_witness :
    WaitOp.unbounded = WaitOp.unbounded :=
  (c7_wait_discipline (fun _ _ => true) (fun _ _ => false) 0
    [⟨"stream:1", 0, .data⟩]).1 WaitOp.unbounded (by decide)

/-! ### C6 — send failure handling -/

/-- A `DataHandlingError` can only originate from a priority-0 target
whose send the transport refused. -/
theorem sendToTargets_dataHandling_source (ok trackerDone : String → Nat → Bool)
    (n : Nat) (ts : List Target)
    (h : (sendToTargets ok trackerDone n ts).err = some SendErr.dataHandling) :
    ∃ t ∈ ts, t.prio = 0 ∧ ok t.socketId n = false := by
  induction ts with
  | nil => simp [sendToTargets] at h
  | cons t rest ih =>
    simp only [sendToTargets] at h
    by_cases hp : t.prio = 0
    · rw [if_pos hp] at h
      by_cases hok : ok t.socketId n
      · rw [if_pos hok] at h
        simp only at h
        obtain ⟨t', ht', hrest⟩ := ih h
        exact ⟨t', List.mem_cons_of_mem t ht', hrest⟩
      · exact ⟨t, List.mem_cons_self t rest,
          hp, Bool.not_eq_true _ ▸ Bool.of_not_eq_true hok⟩
    · rw [if_neg hp] at h
      by_cases hok : ok t.socketId n
      · rw [if_pos hok] at h
        simp only at h
        obtain ⟨t', ht', hrest⟩ := ih h
        exact ⟨t', List.mem_cons_of_mem t ht', hrest⟩
      · rw [if_neg hok] at h
        simp at h

/-- `send_data` when nothing is to be sent: no targets at all, or no
data-mode targets. -/
theorem sendData_empty (ok trackerDone : String → Nat → Bool)
    (cfg : FetcherConfig) (targets : List Target) (meta : FileMeta)
    (content : List Nat)
    (h : targets.isEmpty = true ∨
      (targets.filter (fun t => t.sendType = SendType.data)).isEmpty = true) :
    sendData ok trackerDone cfg targets meta content = ⟨[], [], false, true⟩ := by
  unfold sendData
  rcases h with h | h
  · rw [h]
    simp
  · by_cases h1 : targets.isEmpty
    · rw [if_pos h1]
    · rw [if_neg h1, if_pos h]

/-- `send_data` with at least one data-mode target. -/
theorem sendData_nonempty (ok trackerDone : String → Nat → Bool)
    (cfg : FetcherConfig) (targets : List Target) (meta : FileMeta)
    (content : List Nat)
    (h2 : (targets.filter (fun t => t.sendType = SendType.data)).isEmpty = false) :
    sendData ok trackerDone cfg targets meta content =
      ⟨buildChunks meta content 0,
       (buildChunks meta content 0).map (fun m =>
         sendToTargets ok trackerDone m.header.chunkNumber
           (targets.filter (fun t => t.sendType = SendType.data))),
       ((buildChunks meta content 0).map (fun m =>
         sendToTargets ok trackerDone m.header.chunkNumber
           (targets.filter (fun t => t.sendType = SendType.data)))).any
         (fun r => r.err = some SendErr.dataHandling),
       if cfg.removeData = RemoveData.withConfirmation then false
       else !((buildChunks meta content 0).map (fun m =>
         sendToTargets ok trackerDone m.header.chunkNumber
           (targets.filter (fun t => t.sendType = SendType.data)))).any
         (fun r => r.err = some SendErr.dataHandling)⟩ := by
  have h1 : targets.isEmpty = false := by
    cases h1 : targets.isEmpty
    · rfl
    · exfalso
      have heq : targets = [] := List.isEmpty_iff.mp h1
      rw [heq] at h2
      simp [List.filter] at h2
  unfold sendData
  simp [h1, h2]

/-- C6 counterexample.  The claim says (i) a failed priority>0 send lets
the remaining targets of the chunk proceed, and (ii) a failed file gets no
`store_data` success handling in `finish`.  Both fail: (i) the raw
exception aborts `__sendToTargets`, so the second target here receives
nothing although its own send would have succeeded; (ii) with `store_data`
on, `finish` still copies a file whose priority-0 send failed
(`remove_flag` is false, yet the copy branch does not consult it). -/
theorem c6_counterexample :
    ((sendToTargets (fun t _ => !(t == "bad:1")) (fun _ _ => true) 0
        [⟨"bad:1", 1, .data⟩, ⟨"good:1", 1, .data⟩]).delivered = [] ∧
      (fun (t : String) (_ : Nat) => !(t == "bad:1")) "good:1" 0 = true) ∧
    ((sendData (fun t _ => !(t == "fix:1")) (fun _ _ => true)
        ⟨true, .yes, 10⟩ [⟨"fix:1", 0, .data⟩] ⟨"f", "s", "r", 5, 1, 2, 10⟩
        (List.range 5)).sendError = true ∧
      finishAction ⟨true, .yes, 10⟩
        (sendData (fun t _ => !(t == "fix:1")) (fun _ _ => true)
          ⟨true, .yes, 10⟩ [⟨"fix:1", 0, .data⟩] ⟨"f", "s", "r", 5, 1, 2, 10⟩
          (List.range 5)).removeFlag = FinishAction.copy) := by
  decide

/-- C6 (amended): a priority-0 send failure raises `DataHandlingError`,
which marks the whole file failed (`send_error`), keeps `remove_flag`
false and blocks both removal and moving in `finish` — but when
`store_data` is on the failed file is still copied.  A priority>0 failure
raises a raw exception that skips only the remaining targets of that
chunk: the chunk loop always continues (one send result per chunk for
every chunk), and if no priority-0 send ever fails the file stays eligible
for store/remove handling. -/
theorem c6_send_failures (ok trackerDone : String → Nat → Bool)
    (cfg : FetcherConfig) (targets : List Target) (meta : FileMeta)
    (content : List Nat) :
    ((∃ r ∈ (sendData ok trackerDone cfg targets meta content).chunkResults,
        r.err = some SendErr.dataHandling) →
      (sendData ok trackerDone cfg targets meta content).sendError = true ∧
      (sendData ok trackerDone cfg targets meta content).removeFlag = false ∧
      finishAction cfg (sendData ok trackerDone cfg targets meta content).removeFlag
          ≠ FinishAction.remove ∧
      finishAction cfg (sendData ok trackerDone cfg targets meta content).removeFlag
          ≠ FinishAction.move) ∧
    ((∀ t ∈ targets, t.prio = 0 → ∀ n, ok t.socketId n = true) →
      (sendData ok trackerDone cfg targets meta content).sendError = false ∧
      (cfg.removeData ≠ RemoveData.withConfirmation →
        (sendData ok trackerDone cfg targets meta content).removeFlag = true)) ∧
    ((sendData ok trackerDone cfg targets meta content).chunkResults.length =
      (sendData ok trackerDone cfg targets meta content).msgs.length) ∧
    (cfg.storeData = true → finishAction cfg false = FinishAction.copy) := by
  have hkeep : ∀ b : Bool, (b = true → False) → b = false := by
    intro b hb
    cases b
    · rfl
    · exact absurd rfl hb
  by_cases hbr : (targets.filter (fun t => t.sendType = SendType.data)).isEmpty
  · -- nothing is sent: no failures can be reported
    have hsd := sendData_empty ok trackerDone cfg targets meta content (Or.inr hbr)
    refine ⟨?_, ?_, ?_, ?_⟩
    · intro hfail
      rw [hsd] at hfail
      simp at hfail
    · intro _
      rw [hsd]
      exact ⟨rfl, fun _ => rfl⟩
    · rw [hsd]
      rfl
    · intro hst
      unfold finishAction
      rw [if_neg (by simp), if_pos hst]
  · have h2 : (targets.filter (fun t => t.sendType = SendType.data)).isEmpty = false :=
      hkeep _ (fun hc => hbr hc)
    have hsd := sendData_nonempty ok trackerDone cfg targets meta content h2
    refine ⟨?_, ?_, ?_, ?_⟩
    · intro hfail
      rw [hsd] at hfail ⊢
      obtain ⟨r, hr, herr⟩ := hfail
      have hany : (((buildChunks meta content 0).map (fun m =>
          sendToTargets ok trackerDone m.header.chunkNumber
            (targets.filter (fun t => t.sendType = SendType.data)))).any
          (fun r => r.err = some SendErr.dataHandling)) = true := by
        rw [List.any_eq_true]
        exact ⟨r, hr, by simp [herr]⟩
      refine ⟨hany, ?_, ?_, ?_⟩
      · show (if cfg.removeData = RemoveData.withConfirmation then false
          else !(((buildChunks meta content 0).map _).any _)) = false
        by_cases hwc : cfg.removeData = RemoveData.withConfirmation
        · rw [if_pos hwc]
        · rw [if_neg hwc, hany]
          rfl
      · have hrf : (if cfg.removeData = RemoveData.withConfirmation then false
            else !(((buildChunks meta content 0).map (fun m =>
              sendToTargets ok trackerDone m.header.chunkNumber
                (targets.filter (fun t => t.sendType = SendType.data)))).any
            (fun r => r.err = some SendErr.dataHandling))) = false := by
          by_cases hwc : cfg.removeData = RemoveData.withConfirmation
          · rw [if_pos hwc]
          · rw [if_neg hwc, hany]
            rfl
        rw [hrf]
        unfold finishAction
        split_ifs with hA hB hC <;> simp_all
      · have hrf : (if cfg.removeData = RemoveData.withConfirmation then false
            else !(((buildChunks meta content 0).map (fun m =>
              sendToTargets ok trackerDone m.header.chunkNumber
                (targets.filter (fun t => t.sendType = SendType.data)))).any
            (fun r => r.err = some SendErr.dataHandling))) = false := by
          by_cases hwc : cfg.removeData = RemoveData.withConfirmation
          · rw [if_pos hwc]
          · rw [if_neg hwc, hany]
            rfl
        rw [hrf]
        unfold finishAction
        split_ifs with hA hB hC <;> simp_all
    · intro hall
      have hany : (((buildChunks meta content 0).map (fun m =>
          sendToTargets ok trackerDone m.header.chunkNumber
            (targets.filter (fun t => t.sendType = SendType.data)))).any
          (fun r => r.err = some SendErr.dataHandling)) = false := by
        rw [List.any_eq_false]
        intro r hr
        simp only [List.mem_map] at hr
        obtain ⟨m, _, hm⟩ := hr
        intro hcon
        have herr : r.err = some SendErr.dataHandling := of_decide_eq_true hcon
        rw [← hm] at herr
        obtain ⟨t, ht, hp0, hokf⟩ :=
          sendToTargets_dataHandling_source ok trackerDone _ _ herr
        have hok := hall t (List.mem_of_mem_filter ht) hp0 m.header.chunkNumber
        rw [hok] at hokf
        exact absurd hokf (by simp)
      constructor
      · rw [hsd]
        exact hany
      · intro hwc
        rw [hsd]
        show (if cfg.removeData = RemoveData.withConfirmation then false
          else !(((buildChunks meta content 0).map _).any _)) = true
        rw [if_neg hwc, hany]
        rfl
    · rw [hsd]
      simp
    · intro hst
      unfold finishAction
      rw [if_neg (by simp), if_pos hst]

/-- C6 witness: a run with all priority-0 sends succeeding finishes with
no send error. -/
theorem c6_send_failures_witness :
    (sendData (fun _ _ => true) (fun _ _ => true) ⟨false, .yes, 10⟩
      [⟨"fix:1", 0, .data⟩] ⟨"f", "s", "r", 5, 1, 2, 10⟩
      (List.range 5)).sendError = false :=
  ((c6_send_failures (fun _ _ => true) (fun _ _ => true) ⟨false, .yes, 10⟩
    [⟨"fix:1", 0, .data⟩] ⟨"f", "s", "r", 5, 1, 2, 10⟩
    (List.range 5)).2.1 (fun _ _ _ _ => rfl)).1

/-! ### C4 — confirmation-gated removal -/

/-- Soundness of the (spec-modelled) Cleaner, generalised over facts `R`
(registrations) and `C` (confirmations) already established before the
trace: every deletion is of a registered identifier all of whose chunks
were confirmed. -/
theorem cleaner_inv (evs : List CleanEvent) :
    ∀ (s : CleanerState) (R C : String → Nat → Prop),
      (∀ p ∈ s, R p.1 p.2.total ∧ ∀ c ∈ p.2.seen, C p.1 c) →
      ∀ id ∈ (cleanerRun s evs).2,
        ∃ total, (R id total ∨ CleanEvent.register id total ∈ evs) ∧
          ∀ chunk < total, C id chunk ∨ CleanEvent.confirm id chunk ∈ evs := by
  induction evs with
  | nil =>
    intro s R C _ id hid
    simp [cleanerRun] at hid
  | cons ev evs ih =>
    intro s R C hs id hid
    simp only [cleanerRun] at hid
    rcases List.mem_append.mp hid with hid | hid
    · -- deleted by the current event
      cases ev with
      | register i t => simp [cleanerStep] at hid
      | confirm i c =>
        rcases hf : s.find? (fun p => p.1 = i) with _ | p
        · rw [cleanerStep, hf] at hid
          simp at hid
        · obtain ⟨pid, prec⟩ := p
          have hp_mem : (pid, prec) ∈ s := List.mem_of_find?_eq_some hf
          have hp_id : pid = i := by
            have := List.find?_some hf
            exact of_decide_eq_true this
          rw [cleanerStep, hf] at hid
          dsimp only at hid
          by_cases hall : ((List.range prec.total).all
              (fun ch => decide (ch ∈ insert c prec.seen))) = true
          · rw [if_pos hall] at hid
            simp only [Option.toList_some, List.mem_singleton] at hid
            subst hid
            refine ⟨prec.total, Or.inl (hp_id ▸ (hs _ hp_mem).1), ?_⟩
            intro chunk hchunk
            have hmem : chunk ∈ insert c prec.seen := by
              have := List.all_eq_true.mp hall chunk (List.mem_range.mpr hchunk)
              exact of_decide_eq_true this
            rcases Finset.mem_insert.mp hmem with hm | hm
            · subst hm
              exact Or.inr (List.mem_cons_self _ _)
            · exact Or.inl (hp_id ▸ (hs _ hp_mem).2 chunk hm)
          · rw [if_neg hall] at hid
            simp at hid
    · -- deleted later in the trace
      have hstep : ∀ q ∈ (cleanerStep s ev).1,
          (fun i t => R i t ∨ ev = CleanEvent.register i t) q.1 q.2.total ∧
          ∀ c ∈ q.2.seen, (fun i c => C i c ∨ ev = CleanEvent.confirm i c) q.1 c := by
        intro q hq
        cases ev with
        | register i t =>
          simp only [cleanerStep] at hq
          rcases List.mem_cons.mp hq with hq | hq
          · subst hq
            refine ⟨Or.inr rfl, ?_⟩
            intro c hc
            simp at hc
          · have hq' : q ∈ s := List.mem_of_mem_filter hq
            exact ⟨Or.inl (hs q hq').1, fun c hc => Or.inl ((hs q hq').2 c hc)⟩
        | confirm i c =>
          rcases hf : s.find? (fun p => p.1 = i) with _ | p
          · rw [cleanerStep, hf] at hq
            exact ⟨Or.inl (hs q hq).1, fun c' hc' => Or.inl ((hs q hq).2 c' hc')⟩
          · obtain ⟨pid, prec⟩ := p
            have hp_mem : (pid, prec) ∈ s := List.mem_of_find?_eq_some hf
            have hp_id : pid = i := by
              have := List.find?_some hf
              exact of_decide_eq_true this
            rw [cleanerStep, hf] at hq
            dsimp only at hq
            by_cases hall : ((List.range prec.total).all
                (fun ch => decide (ch ∈ insert c prec.seen))) = true
            · rw [if_pos hall] at hq
              have hq' : q ∈ s := List.mem_of_mem_filter hq
              exact ⟨Or.inl (hs q hq').1, fun c' hc' => Or.inl ((hs q hq').2 c' hc')⟩
            · rw [if_neg hall] at hq
              simp only [List.mem_map] at hq
              obtain ⟨q0, hq0, hq0eq⟩ := hq
              by_cases hqi : q0.1 = i
              · rw [if_pos hqi] at hq0eq
                subst hq0eq
                refine ⟨?_, ?_⟩
                · exact Or.inl (hp_id ▸ (hs _ hp_mem).1)
                · intro c' hc'
                  rcases Finset.mem_insert.mp hc' with hm | hm
                  · subst hm
                    exact Or.inr rfl
                  · exact Or.inl (hp_id ▸ (hs _ hp_mem).2 c' hm)
              · rw [if_neg hqi] at hq0eq
                subst hq0eq
                exact ⟨Or.inl (hs q0 hq0).1, fun c' hc' => Or.inl ((hs q0 hq0).2 c' hc')⟩
      obtain ⟨total, h1, h2⟩ := ih (cleanerStep s ev).1
        (fun i t => R i t ∨ ev = CleanEvent.register i t)
        (fun i c => C i c ∨ ev = CleanEvent.confirm i c) hstep id hid
      refine ⟨total, ?_, ?_⟩
      · rcases h1 with (h1 | h1) | h1
        · exact Or.inl h1
        · exact Or.inr (h1 ▸ List.mem_cons_self _ _)
        · exact Or.inr (List.mem_cons_of_mem _ h1)
      · intro chunk hchunk
        rcases h2 chunk hchunk with (hc | hc) | hc
        · exact Or.inl hc
        · exact Or.inr (hc ▸ List.mem_cons_self _ _)
        · exact Or.inr (List.mem_cons_of_mem _ hc)

/-- C4 counterexample: with `remove_data == with_confirmation` a work item
with an empty target list sets `remove_flag` and `finish` deletes the
25-byte (3-chunk) source file although no confirmation was ever observed. -/
theorem c4_counterexample :
    (sendData (fun _ _ => true) (fun _ _ => true)
        ⟨false, .withConfirmation, 10⟩ [] ⟨"f", "s", "r", 25, 111, 222, 10⟩
        (List.range 25)).removeFlag = true ∧
      finishAction ⟨false, .withConfirmation, 10⟩ true = FinishAction.remove := by
  decide

/-- C4 (amended): when `remove_data == with_confirmation` and the work
item has at least one data-mode target, `send_data` leaves `remove_flag`
false, so `finish` neither removes nor moves the source file; and the
confirmation-counting Cleaner (modelled from the spec) deletes a file only
when it was registered and a confirmation for every chunk below the
expected count appears in the trace.  (A work item without data targets is
removed immediately, see the counterexample.) -/
theorem c4_confirmation_gated_removal (ok trackerDone : String → Nat → Bool)
    (cfg : FetcherConfig) (targets : List Target) (meta : FileMeta)
    (content : List Nat)
    (hwc : cfg.removeData = RemoveData.withConfirmation)
    (hdata : (targets.filter (fun t => t.sendType = SendType.data)).isEmpty = false) :
    ((sendData ok trackerDone cfg targets meta content).removeFlag = false ∧
      finishAction cfg (sendData ok trackerDone cfg targets meta content).removeFlag
          ≠ FinishAction.remove ∧
      finishAction cfg (sendData ok trackerDone cfg targets meta content).removeFlag
          ≠ FinishAction.move) ∧
    (∀ (evs : List CleanEvent) (id : String), id ∈ (cleanerRun [] evs).2 →
      ∃ total, CleanEvent.register id total ∈ evs ∧
        ∀ chunk < total, CleanEvent.confirm id chunk ∈ evs) := by
  have hrf : (sendData ok trackerDone cfg targets meta content).removeFlag = false := by
    rw [sendData_nonempty ok trackerDone cfg targets meta content hdata]
    show (if cfg.removeData = RemoveData.withConfirmation then false else _) = false
    rw [if_pos hwc]
  constructor
  · refine ⟨hrf, ?_, ?_⟩ <;> rw [hrf] <;> unfold finishAction <;>
      split_ifs with hA hB hC <;> simp_all
  · intro evs id hid
    obtain ⟨total, h1, h2⟩ := cleaner_inv evs []
      (fun _ _ => False) (fun _ _ => False) (by intro p hp; simp at hp) id hid
    refine ⟨total, ?_, ?_⟩
    · rcases h1 with h1 | h1
      · exact absurd h1 (by simp)
      · exact h1
    · intro chunk hchunk
      rcases h2 chunk hchunk with hc | hc
      · exact absurd hc (by simp)
      · exact hc

/-- C4 witness: under `with_confirmation` with a real data target the
fetcher leaves the file in place. -/
theorem c4_confirmation_gated_removal_witness :
    (sendData (fun _ _ => true) (fun _ _ => true)
      ⟨false, .withConfirmation, 10⟩ [⟨"t:1", 1, .data⟩]
      ⟨"f", "s", "r", 25, 111, 222, 10⟩ (List.range 25)).removeFlag = false :=
  (c4_confirmation_gated_removal (fun _ _ => true) (fun _ _ => true)
    ⟨false, .withConfirmation, 10⟩ [⟨"t:1", 1, .data⟩]
    ⟨"f", "s", "r", 25, 111, 222, 10⟩ (List.range 25)
    (by decide) (by decide)).1.1

/-! ### C1 — START admission -/

/-- The `overwrite_index` fold yields `none` exactly when no registered
endpoint set is nested with the new one. -/
theorem overwriteIndex_fold_none (newFlat : Finset String)
    (flat : List (Finset String)) :
    ∀ (l : List (Finset String)) (acc : Option Nat),
      (l.foldl (fun acc f =>
          if newFlat ⊆ f ∨ f ⊆ newFlat then some (flat.indexOf f) else acc) acc
        = none) ↔
      (acc = none ∧ ∀ f ∈ l, ¬(newFlat ⊆ f ∨ f ⊆ newFlat)) := by
  intro l
  induction l with
  | nil => intro acc; simp
  | cons f l ih =>
    intro acc
    simp only [List.foldl_cons]
    by_cases hf : newFlat ⊆ f ∨ f ⊆ newFlat
    · rw [if_pos hf, ih]
      simp only [List.mem_cons]
      constructor
      · intro ⟨h1, _⟩
        exact absurd h1 (by simp)
      · intro ⟨_, h2⟩
        exact absurd hf (h2 f (Or.inl rfl))
    · rw [if_neg hf, ih]
      simp only [List.mem_cons]
      constructor
      · intro ⟨h1, h2⟩
        refine ⟨h1, ?_⟩
        intro g hg
        rcases hg with hg | hg
        · subst hg; exact hf
        · exact h2 g hg
      · intro ⟨h1, h2⟩
        exact ⟨h1, fun g hg => h2 g (Or.inr hg)⟩

/-- A `some` result of the fold points (via Python `list.index`) at a
nested registered endpoint set, unless it was already the accumulator. -/
theorem overwriteIndex_fold_some (newFlat : Finset String)
    (flat : List (Finset String)) :
    ∀ (l : List (Finset String)) (acc : Option Nat) (i : Nat),
      (l.foldl (fun acc f =>
          if newFlat ⊆ f ∨ f ⊆ newFlat then some (flat.indexOf f) else acc) acc
        = some i) →
      (∃ f ∈ l, (newFlat ⊆ f ∨ f ⊆ newFlat) ∧ i = flat.indexOf f) ∨ acc = some i := by
  intro l
  induction l with
  | nil => intro acc i h; exact Or.inr h
  | cons f l ih =>
    intro acc i h
    simp only [List.foldl_cons] at h
    by_cases hf : newFlat ⊆ f ∨ f ⊆ newFlat
    · rw [if_pos hf] at h
      rcases ih _ i h with ⟨g, hg, hrel, hi⟩ | hacc
      · exact Or.inl ⟨g, List.mem_cons_of_mem f hg, hrel, hi⟩
      · exact Or.inl ⟨f, List.mem_cons_self f l, hf, (Option.some_inj.mp hacc).symm⟩
    · rw [if_neg hf] at h
      rcases ih _ i h with ⟨g, hg, hrel, hi⟩ | hacc
      · exact Or.inl ⟨g, List.mem_cons_of_mem f hg, hrel, hi⟩
      · exact Or.inr hacc

/-- The endpoint set of the sorted registered nodeset is the endpoint set
of the request. -/
theorem nodesetEndpoints_insertionSort (l : List Subscription) :
    nodesetEndpoints (List.insertionSort (fun a b => subLe a b = true) l) =
      nodesetEndpoints l := by
  unfold nodesetEndpoints
  apply List.toFinset_eq_of_perm
  exact (List.perm_insertionSort _ l).map _

/-- C1 counterexample: a START whose endpoint set {b,c} overlaps the
registered nodeset {a,b} without nesting is not rejected — the handler
acknowledges it and appends the new nodeset, leaving two
overlapping-but-not-nested nodesets in the stream registry (P6 fails). -/
theorem c1_counterexample :
    (handleCom ⟨fun h => h, fun _ _ => true, ["a", "b", "c"], true, "4.0.1"⟩
        (.valid "" "START_STREAM" [⟨"b:1", 1, .raw "p"⟩, ⟨"c:1", 1, .raw "p"⟩])
        ((handleCom ⟨fun h => h, fun _ _ => true, ["a", "b", "c"], true, "4.0.1"⟩
          (.valid "" "START_STREAM" [⟨"a:1", 1, .raw "p"⟩, ⟨"b:1", 1, .raw "p"⟩])
          initState).state)).reply = Reply.ack "START_STREAM" ∧
    ((handleCom ⟨fun h => h, fun _ _ => true, ["a", "b", "c"], true, "4.0.1"⟩
        (.valid "" "START_STREAM" [⟨"b:1", 1, .raw "p"⟩, ⟨"c:1", 1, .raw "p"⟩])
        ((handleCom ⟨fun h => h, fun _ _ => true, ["a", "b", "c"], true, "4.0.1"⟩
          (.valid "" "START_STREAM" [⟨"a:1", 1, .raw "p"⟩, ⟨"b:1", 1, .raw "p"⟩])
          initState).state)).state.openRequPerm.map nodesetEndpoints =
      [{"a:1", "b:1"}, {"b:1", "c:1"}]) ∧
    ((({"a:1", "b:1"} : Finset String) ∩ {"b:1", "c:1"}).Nonempty ∧
      ¬({"a:1", "b:1"} : Finset String) ⊆ {"b:1", "c:1"} ∧
      ¬({"b:1", "c:1"} : Finset String) ⊆ {"a:1", "b:1"}) := by
  decide

/-- `overwrite_index` stays unset exactly when no registered endpoint set
is nested with the new one. -/
theorem overwriteIndex_none_iff (flat : List (Finset String)) (e : Finset String) :
    overwriteIndex flat e = none ↔ ∀ f ∈ flat, ¬(e ⊆ f ∨ f ⊆ e) := by
  unfold overwriteIndex
  rw [overwriteIndex_fold_none]
  simp

/-- A set `overwrite_index` is in range and points at a nested registered
endpoint set. -/
theorem overwriteIndex_some_spec (flat : List (Finset String)) (e : Finset String)
    (i : Nat) (h : overwriteIndex flat e = some i) :
    i < flat.length ∧ (e ⊆ flat.getD i ∅ ∨ flat.getD i ∅ ⊆ e) := by
  unfold overwriteIndex at h
  rcases overwriteIndex_fold_some e flat flat none i h with ⟨f, hf, hrel, hieq⟩ | habs
  · subst hieq
    have hlt : List.indexOf f flat < flat.length := List.indexOf_lt_length.mpr hf
    refine ⟨hlt, ?_⟩
    rw [List.getD_eq_getElem _ _ hlt, List.getElem_indexOf hlt]
    exact hrel
  · simp at habs

/-- `_start_signal` in the replace case. -/
theorem startSignal_replace (fqdn : String → String) (sendType : SendType)
    (socketIds : List SockConf) (registeredIds : List (List Subscription))
    (variOpt : Option (List (List Subscription))) (permOpt : Option (List Nat))
    (i : Nat)
    (h : overwriteIndex (registeredIds.map nodesetEndpoints)
      (nodesetEndpoints (convSubs fqdn sendType socketIds)) = some i) :
    startSignal fqdn sendType socketIds registeredIds variOpt permOpt =
      ⟨registeredIds.set i (List.insertionSort (fun a b => subLe a b = true)
          (convSubs fqdn sendType socketIds)),
        variOpt.map (fun v => v.set i []),
        permOpt.map (fun p => p.set i 0)⟩ := by
  unfold startSignal
  dsimp only
  rw [h]

/-- `_start_signal` in the append case. -/
theorem startSignal_append (fqdn : String → String) (sendType : SendType)
    (socketIds : List SockConf) (registeredIds : List (List Subscription))
    (variOpt : Option (List (List Subscription))) (permOpt : Option (List Nat))
    (h : overwriteIndex (registeredIds.map nodesetEndpoints)
      (nodesetEndpoints (convSubs fqdn sendType socketIds)) = none) :
    startSignal fqdn sendType socketIds registeredIds variOpt permOpt =
      ⟨registeredIds ++ [List.insertionSort (fun a b => subLe a b = true)
          (convSubs fqdn sendType socketIds)],
        variOpt.map (fun v => v ++ [[]]),
        permOpt.map (fun p => p ++ [0])⟩ := by
  unfold startSignal
  dsimp only
  rw [h]

/-- The endpoint set of the converted entries is the requested endpoint
set. -/
theorem convSubs_endpoints (fqdn : String → String) (sendType : SendType)
    (socketIds : List SockConf) :
    nodesetEndpoints (convSubs fqdn sendType socketIds) =
      (socketIds.map (fun sc => fqdn sc.socketId)).toFinset := by
  unfold convSubs nodesetEndpoints
  rw [List.map_map]
  rfl

/-- C1 (amended): on START, if some registered nodeset's endpoint set is
nested with the new endpoint set `E` (subset or superset), a nodeset whose
endpoint set is nested with `E` is replaced by the new one with its cursor
reset to 0 and its pending list cleared; otherwise — including the
overlapping-but-not-nested case, which is only logged, never rejected —
the new nodeset is appended with a fresh cursor 0 / empty pending list. -/
theorem c1_start_admission (fqdn : String → String) (sendType : SendType)
    (socketIds : List SockConf) (registeredIds : List (List Subscription))
    (variOpt : Option (List (List Subscription))) (permOpt : Option (List Nat)) :
    ((∃ f ∈ registeredIds.map nodesetEndpoints,
        ((socketIds.map (fun sc => fqdn sc.socketId)).toFinset ⊆ f ∨
          f ⊆ (socketIds.map (fun sc => fqdn sc.socketId)).toFinset)) →
      ∃ i, i < registeredIds.length ∧
        ((socketIds.map (fun sc => fqdn sc.socketId)).toFinset ⊆
            (registeredIds.map nodesetEndpoints).getD i ∅ ∨
          (registeredIds.map nodesetEndpoints).getD i ∅ ⊆
            (socketIds.map (fun sc => fqdn sc.socketId)).toFinset) ∧
        ∃ ns, nodesetEndpoints ns = (socketIds.map (fun sc => fqdn sc.socketId)).toFinset ∧
          (startSignal fqdn sendType socketIds registeredIds variOpt permOpt).registeredIds =
            registeredIds.set i ns ∧
          (startSignal fqdn sendType socketIds registeredIds variOpt permOpt).variRequests =
            variOpt.map (fun v => v.set i []) ∧
          (startSignal fqdn sendType socketIds registeredIds variOpt permOpt).permRequests =
            permOpt.map (fun p => p.set i 0)) ∧
    ((∀ f ∈ registeredIds.map nodesetEndpoints,
        ¬((socketIds.map (fun sc => fqdn sc.socketId)).toFinset ⊆ f ∨
          f ⊆ (socketIds.map (fun sc => fqdn sc.socketId)).toFinset)) →
      ∃ ns, nodesetEndpoints ns = (socketIds.map (fun sc => fqdn sc.socketId)).toFinset ∧
        (startSignal fqdn sendType socketIds registeredIds variOpt permOpt).registeredIds =
          registeredIds ++ [ns] ∧
        (startSignal fqdn sendType socketIds registeredIds variOpt permOpt).variRequests =
          variOpt.map (fun v => v ++ [[]]) ∧
        (startSignal fqdn sendType socketIds registeredIds variOpt permOpt).permRequests =
          permOpt.map (fun p => p ++ [0])) := by
  have hE := convSubs_endpoints fqdn sendType socketIds
  have hNS : nodesetEndpoints (List.insertionSort (fun a b => subLe a b = true)
      (convSubs fqdn sendType socketIds)) =
      (socketIds.map (fun sc => fqdn sc.socketId)).toFinset := by
    rw [nodesetEndpoints_insertionSort, hE]
  constructor
  · intro ⟨f, hf, hrel⟩
    rcases hidx : overwriteIndex (registeredIds.map nodesetEndpoints)
        (nodesetEndpoints (convSubs fqdn sendType socketIds)) with _ | i
    · exfalso
      rw [overwriteIndex_none_iff] at hidx
      exact hidx f hf (hE ▸ hrel)
    · obtain ⟨hlt, hrel2⟩ := overwriteIndex_some_spec _ _ i hidx
      rw [hE] at hrel2
      rw [List.length_map] at hlt
      refine ⟨i, hlt, hrel2, _, hNS, ?_, ?_, ?_⟩ <;>
        rw [startSignal_replace fqdn sendType socketIds registeredIds variOpt permOpt i hidx]
  · intro hnone
    have hidx : overwriteIndex (registeredIds.map nodesetEndpoints)
        (nodesetEndpoints (convSubs fqdn sendType socketIds)) = none := by
      rw [overwriteIndex_none_iff]
      intro f hf hrel
      exact hnone f hf (hE ▸ hrel)
    refine ⟨_, hNS, ?_, ?_, ?_⟩ <;>
      rw [startSignal_append fqdn sendType socketIds registeredIds variOpt permOpt hidx]

/-- C1 witness: from an empty registry a START appends its nodeset. -/
theorem c1_start_admission_witness :
    (startSignal (fun h => h) SendType.data [⟨"a:1", 1, .raw "p"⟩] [] none
      (some [])).registeredIds.length = 1 := by
  have h := (c1_start_admission (fun h => h) SendType.data
    [⟨"a:1", 1, .raw "p"⟩] [] none (some [])).2 (by intro f hf; simp at hf)
  obtain ⟨ns, hns, hreg, _, _⟩ := h
  rw [hreg]
  rfl

/-! ### C2 — GET_REQUESTS selection -/

/-- Spec-side description of one stream nodeset (from the claim's words):
only the member at the current cursor is tested; on a match its
`[endpoint, priority, mode]` triple is emitted. -/
def cursorEmitSpec (compile : String → String → Bool) (filename : String)
    (rs : List Subscription) (c : Nat) : List Emit :=
  match rs[c]? with
  | some sub =>
    if compile sub.patternStr filename then [(sub.socketId, sub.prio, sub.sendType)]
    else []
  | none => []

/-- Spec-side cursor update: advance by one modulo the nodeset size on a
match, stay put otherwise. -/
def cursorStepSpec (compile : String → String → Bool) (filename : String)
    (rs : List Subscription) (c : Nat) : Nat :=
  match rs[c]? with
  | some sub => if compile sub.patternStr filename then (c + 1) % rs.length else c
  | none => c

/-- Spec-side description of one query nodeset: a matching head-of-queue
entry is emitted. -/
def queryEmitSpec (compile : String → String → Bool) (filename : String) :
    List Subscription → List Emit
  | [] => []
  | h :: _ =>
    if compile h.patternStr filename then [(h.socketId, h.prio, h.sendType)] else []

/-- Spec-side query queue update: a matching head is popped. -/
def queryStepSpec (compile : String → String → Bool) (filename : String) :
    List Subscription → List Subscription
  | [] => []
  | h :: t => if compile h.patternStr filename then t else h :: t

/-- The stream loop refines the per-nodeset spec (pointwise over the
zipped registry and cursor list). -/
theorem streamLoop_spec (compile : String → String → Bool) (filename : String) :
    ∀ (perm : List (List Subscription)) (cs : List Nat),
      perm.length = cs.length →
      streamLoop compile filename perm cs =
        ((List.zipWith (cursorEmitSpec compile filename) perm cs).flatten,
         List.zipWith (cursorStepSpec compile filename) perm cs) := by
  intro perm
  induction perm with
  | nil =>
    intro cs h
    have : cs = [] := List.eq_nil_of_length_eq_zero h.symm
    subst this
    rfl
  | cons rs rest ih =>
    intro cs h
    cases cs with
    | nil => simp at h
    | cons c cs' =>
      have hlen : rest.length = cs'.length := by simpa using h
      simp only [streamLoop, ih cs' hlen, List.zipWith_cons_cons, List.flatten_cons]
      by_cases hrs : rs.isEmpty
      · have hnil : rs = [] := List.isEmpty_iff.mp hrs
        subst hnil
        simp [cursorEmitSpec, cursorStepSpec]
      · rw [if_neg hrs]
        rcases hget : rs[c]? with _ | sub
      <;> simp only [cursorEmitSpec, cursorStepSpec, hget]
        · simp
        · by_cases hm : compile sub.patternStr filename
          · simp [hm]
          · simp [hm]

/-- The query loop refines the per-nodeset spec. -/
theorem variLoop_spec (compile : String → String → Bool) (filename : String) :
    ∀ (vari : List (List Subscription)),
      variLoop compile filename vari =
        ((vari.map (queryEmitSpec compile filename)).flatten,
         vari.map (queryStepSpec compile filename)) := by
  intro vari
  induction vari with
  | nil => rfl
  | cons q rest ih =>
    simp only [variLoop, ih, List.map_cons, List.flatten_cons]
    cases q with
    | nil => rfl
    | cons h t =>
      by_cases hm : compile h.patternStr filename
      · simp [queryEmitSpec, queryStepSpec, hm]
      · simp [queryEmitSpec, queryStepSpec, hm]

/-- C2: a GET_REQUESTS query tests, for each stream nodeset, only the
member at the current cursor; a match emits its `[endpoint, priority,
mode]` triple and advances the cursor modulo the nodeset size, a mismatch
emits nothing and leaves the cursor; matching query heads are popped and
emitted after the stream emissions; and the reply is the sentinel
`["None"]` exactly when no stream or query subscription matched. -/
theorem c2_get_requests (compile : String → String → Bool) (filename : String)
    (s : SHState) (hlen : s.openRequPerm.length = s.nextRequNode.length) :
    ((getRequests compile filename s).2.nextRequNode =
        List.zipWith (cursorStepSpec compile filename) s.openRequPerm s.nextRequNode ∧
      (getRequests compile filename s).2.openRequVari =
        s.openRequVari.map (queryStepSpec compile filename) ∧
      (getRequests compile filename s).2.openRequPerm = s.openRequPerm ∧
      (getRequests compile filename s).2.allowedQueries = s.allowedQueries) ∧
    ((getRequests compile filename s).1 =
      if ((List.zipWith (cursorEmitSpec compile filename)
            s.openRequPerm s.nextRequNode).flatten ++
          (s.openRequVari.map (queryEmitSpec compile filename)).flatten).isEmpty
      then GetReply.noneSentinel
      else GetReply.requests
        ((List.zipWith (cursorEmitSpec compile filename)
            s.openRequPerm s.nextRequNode).flatten ++
          (s.openRequVari.map (queryEmitSpec compile filename)).flatten)) := by
  unfold getRequests
  rw [streamLoop_spec compile filename s.openRequPerm s.nextRequNode hlen,
      variLoop_spec compile filename s.openRequVari]
  exact ⟨⟨rfl, rfl, rfl, rfl⟩, rfl⟩

/-- C2 witness: one stream nodeset whose cursor member matches delivers
exactly that member and advances the cursor from 1 back to 0. -/
theorem c2_get_requests_witness :
    (getRequests (fun _ _ => true) "f"
        ⟨[], [[⟨"a:1", 1, "p", .data⟩, ⟨"b:1", 1, "p", .data⟩]], [], [1]⟩).1 =
      GetReply.requests [("b:1", 1, SendType.data)] ∧
    (getRequests (fun _ _ => true) "f"
        ⟨[], [[⟨"a:1", 1, "p", .data⟩, ⟨"b:1", 1, "p", .data⟩]], [], [1]⟩).2.nextRequNode
      = [0] := by
  have h := c2_get_requests (fun _ _ => true) "f"
    ⟨[], [[⟨"a:1", 1, "p", .data⟩, ⟨"b:1", 1, "p", .data⟩]], [], [1]⟩ (by decide)
  constructor
  · rw [h.2]
    decide
  · rw [h.1.1]
    decide

/-! ### C9 — error replies -/

/-- C9: `handleCom` is a total function — a malformed peer message can
never abort the SignalHandler loop — and returns exactly one reply per
message; whenever that reply is one of the error replies
(`NO_VALID_SIGNAL`, `VERSION_CONFLICT`, `NO_VALID_HOST`,
`STORING_DISABLED`), the whole registry state is left unchanged and no
`CLOSE_SOCKETS` is published. -/
theorem c9_error_replies (env : Env) (m : InMessage) (s : SHState)
    (herr : (handleCom env m s).reply = Reply.noValidSignal ∨
      (∃ v, (handleCom env m s).reply = Reply.versionConflict v) ∨
      (handleCom env m s).reply = Reply.noValidHost ∨
      (∃ v, (handleCom env m s).reply = Reply.storingDisabled v)) :
    (handleCom env m s).state = s ∧ (handleCom env m s).closeSockets = none := by
  have hshape : ∀ (sig : String) (tg : List SockConf),
      (reactToSignal env sig tg s).reply = Reply.ack sig ∨
      (reactToSignal env sig tg s).reply = Reply.versionAnswer sig env.localVer ∨
      ((reactToSignal env sig tg s).state = s ∧
        (reactToSignal env sig tg s).closeSockets = none) := by
    intro sig tg
    unfold reactToSignal
    split_ifs
    all_goals first
      | (simp
         done)
      | (dsimp only
         split_ifs <;> simp)
  have hreact : ∀ (sig : String) (tg : List SockConf),
      ((reactToSignal env sig tg s).reply = Reply.noValidSignal ∨
        (∃ v, (reactToSignal env sig tg s).reply = Reply.versionConflict v) ∨
        (reactToSignal env sig tg s).reply = Reply.noValidHost ∨
        (∃ v, (reactToSignal env sig tg s).reply = Reply.storingDisabled v)) →
      (reactToSignal env sig tg s).state = s ∧
        (reactToSignal env sig tg s).closeSockets = none := by
    intro sig tg herr2
    rcases hshape sig tg with hx | hx | hdone
    · exfalso
      rcases herr2 with h | ⟨v, h⟩ | h | ⟨v, h⟩ <;> rw [hx] at h <;> simp at h
    · exfalso
      rcases herr2 with h | ⟨v, h⟩ | h | ⟨v, h⟩ <;> rw [hx] at h <;> simp at h
    · exact hdone
  cases m with
  | malformed => exact ⟨rfl, rfl⟩
  | valid version signal targets =>
    cases hc : checkSignalInverted env (.valid version signal targets) with
    | failed r =>
      have heq : handleCom env (.valid version signal targets) s = ⟨r, s, none⟩ := by
        unfold handleCom
        rw [hc]
      rw [heq]
      exact ⟨rfl, rfl⟩
    | passed sig tg =>
      have heq : handleCom env (.valid version signal targets) s =
          reactToSignal env sig tg s := by
        unfold handleCom
        rw [hc]
      rw [heq] at herr ⊢
      exact hreact sig tg herr

/-- C9 witness: a START for a host outside the whitelist is answered by
`NO_VALID_HOST` and the registries stay empty. -/
theorem c9_error_replies_witness :
    (handleCom ⟨fun h => h, fun _ _ => true, ["a"], true, "4.0.1"⟩
      (.valid "" "START_STREAM" [⟨"z:1", 1, .raw "p"⟩]) initState).state =
      initState :=
  (c9_error_replies ⟨fun h => h, fun _ _ => true, ["a"], true, "4.0.1"⟩
    (.valid "" "START_STREAM" [⟨"z:1", 1, .raw "p"⟩]) initState
    (Or.inr (Or.inr (Or.inl (by decide))))).1

/-! ### Counting and alignment infrastructure for the trace invariants -/

/-- Number of entries for endpoint `e` in a subscription list. -/
def countId (e : String) (l : List Subscription) : Nat :=
  (l.filter (fun sub => sub.socketId == e)).length

/-- Pending query entries for `e` across all query nodesets. -/
def pendingCount (e : String) (s : SHState) : Nat :=
  (s.openRequVari.map (countId e)).sum

/-- Registered query entries for `e` across all query nodesets (what one
NEXT from `e` appends). -/
def allowedCount (e : String) (s : SHState) : Nat :=
  (s.allowedQueries.map (countId e)).sum

/-- Emitted triples for `e` in an emission list. -/
def emitCount (e : String) (l : List Emit) : Nat :=
  (l.filter (fun t => t.1 == e)).length

theorem countId_append (e : String) (a b : List Subscription) :
    countId e (a ++ b) = countId e a + countId e b := by
  unfold countId
  rw [List.filter_append, List.length_append]

theorem countId_filter_le (e : String) (p : Subscription → Bool) (l : List Subscription) :
    countId e (l.filter p) ≤ countId e l := by
  unfold countId
  exact ((List.filter_sublist l).filter _).length_le

theorem countId_filter_eq (e id : String) (l : List Subscription) :
    countId e (l.filter (fun sub => sub.socketId == id)) =
      if id = e then countId e l else 0 := by
  induction l with
  | nil => simp [countId]
  | cons x xs ih =>
    unfold countId at ih ⊢
    rw [List.filter_cons]
    by_cases hx : x.socketId = id
    · rw [if_pos (show (x.socketId == id) = true by simp [hx])]
      rw [List.filter_cons]
      by_cases hid : id = e
      · subst hid
        rw [if_pos (show (x.socketId == id) = true by simp [hx])]
        simp [ih, List.filter_cons, hx]
      · rw [if_neg (show ¬(x.socketId == e) = true by simp [hx, hid])]
        rw [ih, if_neg hid, if_neg hid]
    · rw [if_neg (show ¬(x.socketId == id) = true by simp [hx])]
      rw [ih]
      by_cases hid : id = e
      · subst hid
        rw [if_pos rfl, if_pos rfl, List.filter_cons,
          if_neg (show ¬(x.socketId == id) = true by simp [hx])]
      · rw [if_neg hid, if_neg hid]

theorem countId_filter_ne_self (e : String) (l : List Subscription) :
    countId e (l.filter (fun sub => sub.socketId != e)) = 0 := by
  unfold countId
  induction l with
  | nil => rfl
  | cons x xs ih =>
    by_cases hx : x.socketId = e
    · simp [List.filter_cons, hx, ih]
    · have h1 : (x.socketId != e) = true := by
        simp [bne_iff_ne]
        exact hx
      have h2 : (x.socketId == e) = false := by
        rw [beq_eq_false_iff_ne]
        exact hx
      simp [List.filter_cons, h1, h2, ih]

theorem sum_map_set_nil (e : String) (v : List (List Subscription)) (i : Nat) :
    ((v.set i []).map (countId e)).sum ≤ (v.map (countId e)).sum := by
  induction v generalizing i with
  | nil => simp
  | cons q rest ih =>
    cases i with
    | zero =>
      have hz : (q :: rest).set 0 ([] : List Subscription) = [] :: rest := rfl
      rw [hz]
      simp only [List.map_cons, List.sum_cons]
      have hc : countId e ([] : List Subscription) = 0 := rfl
      rw [hc]
      omega
    | succ j =>
      have hs : (q :: rest).set (j + 1) ([] : List Subscription) = q :: rest.set j [] := rfl
      rw [hs]
      simp only [List.map_cons, List.sum_cons]
      have := ih j
      omega

theorem sum_map_eraseIdx_le (f : List Subscription → Nat)
    (v : List (List Subscription)) (i : Nat) :
    ((v.eraseIdx i).map f).sum ≤ (v.map f).sum := by
  induction v generalizing i with
  | nil => simp
  | cons q rest ih =>
    cases i with
    | zero =>
      simp only [List.eraseIdx, List.map_cons, List.sum_cons]
      omega
    | succ j =>
      simp only [List.eraseIdx, List.map_cons, List.sum_cons]
      have := ih j
      omega

theorem sum_map_filter_le (e : String) (p : Subscription → Bool)
    (v : List (List Subscription)) :
    ((v.map (fun oq => oq.filter p)).map (countId e)).sum ≤
      (v.map (countId e)).sum := by
  induction v with
  | nil => simp
  | cons q rest ih =>
    simp only [List.map_cons, List.sum_cons]
    have := countId_filter_le e p q
    omega

/-- Pointwise relation between a stream nodeset and its cursor: empty
nodesets carry cursor 0, nonempty ones a cursor below their size. -/
def cursorRel (ns : List Subscription) (c : Nat) : Prop :=
  (ns = [] → c = 0) ∧ (ns ≠ [] → c < ns.length)

theorem forall₂_set {α β : Type} {r : α → β → Prop} :
    ∀ {l1 : List α} {l2 : List β} (i : Nat) {a : α} {b : β},
      List.Forall₂ r l1 l2 → r a b →
      List.Forall₂ r (l1.set i a) (l2.set i b) := by
  intro l1 l2 i a b h hr
  induction h generalizing i with
  | nil => simp [List.Forall₂.nil]
  | cons hx hrest ih =>
    cases i with
    | zero => exact List.Forall₂.cons hr hrest
    | succ j => exact List.Forall₂.cons hx (ih j)

theorem forall₂_eraseIdx {α β : Type} {r : α → β → Prop} :
    ∀ {l1 : List α} {l2 : List β} (i : Nat),
      List.Forall₂ r l1 l2 →
      List.Forall₂ r (l1.eraseIdx i) (l2.eraseIdx i) := by
  intro l1 l2 i h
  induction h generalizing i with
  | nil => simp [List.Forall₂.nil]
  | cons hx hrest ih =>
    cases i with
    | zero => exact hrest
    | succ j => exact List.Forall₂.cons hx (ih j)

theorem eraseIdx_set_same {α : Type} :
    ∀ (l : List α) (i : Nat) (a : α), (l.set i a).eraseIdx i = l.eraseIdx i := by
  intro l
  induction l with
  | nil => intro i a; cases i <;> rfl
  | cons x xs ih =>
    intro i a
    cases i with
    | zero => rfl
    | succ j =>
      have hs : (x :: xs).set (j + 1) a = x :: xs.set j a := rfl
      rw [hs]
      simp only [List.eraseIdx]
      rw [ih j a]

/-! ### Per-operation accounting lemmas for the trace invariants -/

theorem countId_cons (e : String) (x : Subscription) (l : List Subscription) :
    countId e (x :: l) = (if x.socketId == e then 1 else 0) + countId e l := by
  unfold countId
  rw [List.filter_cons]
  by_cases hx : (x.socketId == e) = true
  · rw [if_pos hx, if_pos hx, List.length_cons]
    omega
  · rw [if_neg hx, if_neg hx]
    omega

theorem emitCount_cons (e : String) (x : Emit) (l : List Emit) :
    emitCount e (x :: l) = (if x.1 == e then 1 else 0) + emitCount e l := by
  unfold emitCount
  rw [List.filter_cons]
  by_cases hx : (x.1 == e) = true
  · rw [if_pos hx, if_pos hx, List.length_cons]
    omega
  · rw [if_neg hx, if_neg hx]
    omega

/-- One GET_REQUESTS pass conserves pending query entries: what the query
loop emits for `e` plus what stays pending equals what was pending. -/
theorem variLoop_pending (compile : String → String → Bool) (f e : String) :
    ∀ (vari : List (List Subscription)),
      emitCount e (variLoop compile f vari).1 +
        ((variLoop compile f vari).2.map (countId e)).sum =
      (vari.map (countId e)).sum := by
  intro vari
  induction vari with
  | nil => rfl
  | cons q rest ih =>
    cases q with
    | nil =>
      show emitCount e (variLoop compile f rest).1 +
          (([] :: (variLoop compile f rest).2).map (countId e)).sum =
        ((([] : List Subscription) :: rest).map (countId e)).sum
      simp only [List.map_cons, List.sum_cons]
      have h0 : countId e ([] : List Subscription) = 0 := rfl
      rw [h0]
      omega
    | cons x t =>
      have hstep : variLoop compile f ((x :: t) :: rest) =
          (if compile x.patternStr f
            then ((x.socketId, x.prio, x.sendType) :: (variLoop compile f rest).1,
                  t :: (variLoop compile f rest).2)
            else ((variLoop compile f rest).1, (x :: t) :: (variLoop compile f rest).2)) := rfl
      rw [hstep]
      by_cases hm : compile x.patternStr f
      · rw [if_pos hm]
        simp only [List.map_cons, List.sum_cons]
        have hec : emitCount e ((x.socketId, x.prio, x.sendType) :: (variLoop compile f rest).1)
            = (if x.socketId == e then 1 else 0) + emitCount e (variLoop compile f rest).1 :=
          emitCount_cons e _ _
        rw [hec, countId_cons]
        omega
      · rw [if_neg hm]
        simp only [List.map_cons, List.sum_cons]
        omega

theorem variLoop_length (compile : String → String → Bool) (f : String)
    (vari : List (List Subscription)) :
    (variLoop compile f vari).2.length = vari.length := by
  rw [variLoop_spec]
  simp

theorem zipWith_append_filter_sum (e id : String) :
    ∀ (aq v : List (List Subscription)), aq.length = v.length →
      ((List.zipWith (fun a vq => vq ++ a.filter (fun sub => sub.socketId == id)) aq v).map
          (countId e)).sum =
        (v.map (countId e)).sum + (if id = e then (aq.map (countId e)).sum else 0) := by
  intro aq
  induction aq with
  | nil =>
    intro v h
    have hv : v = [] := List.eq_nil_of_length_eq_zero h.symm
    subst hv
    simp
  | cons a arest ih =>
    intro v h
    cases v with
    | nil => simp at h
    | cons vq vrest =>
      have hlen : arest.length = vrest.length := by simpa using h
      simp only [List.zipWith_cons_cons, List.map_cons, List.sum_cons]
      rw [countId_append, countId_filter_eq, ih vrest hlen]
      by_cases hid : id = e
      · rw [if_pos hid, if_pos hid, if_pos hid]
        omega
      · rw [if_neg hid, if_neg hid, if_neg hid]
        omega

/-- A NEXT from endpoint `id` with `fqdn id = e` appends one pending entry
per registered query subscription of `e` (and nothing for other
endpoints). -/
theorem nextRequest_pending (fqdn : String → String) (ep e : String) (s : SHState)
    (hQ : s.allowedQueries.length = s.openRequVari.length) :
    pendingCount e (nextRequest fqdn ep s) =
      pendingCount e s + (if fqdn ep = e then allowedCount e s else 0) :=
  zipWith_append_filter_sum e (fqdn ep) s.allowedQueries s.openRequVari hQ

theorem nextRequest_aligned (fqdn : String → String) (ep : String) (s : SHState)
    (hQ : s.allowedQueries.length = s.openRequVari.length) :
    (nextRequest fqdn ep s).allowedQueries.length =
      (nextRequest fqdn ep s).openRequVari.length := by
  show s.allowedQueries.length =
    (List.zipWith (fun aq vq => vq ++ aq.filter (fun sub => sub.socketId == fqdn ep))
      s.allowedQueries s.openRequVari).length
  rw [List.length_zipWith, hQ, min_self]

theorem cancelRequest_pending_le (fqdn : String → String) (ep e : String) (s : SHState) :
    pendingCount e (cancelRequest fqdn ep s) ≤ pendingCount e s :=
  sum_map_filter_le e (fun sub => sub.socketId != fqdn ep) s.openRequVari

/-- A CANCEL clears every pending entry of its (fqdn-converted)
endpoint. -/
theorem cancelRequest_pending_self (fqdn : String → String) (ep : String) (s : SHState) :
    pendingCount (fqdn ep) (cancelRequest fqdn ep s) = 0 := by
  show ((s.openRequVari.map (fun vq => vq.filter (fun sub => sub.socketId != fqdn ep))).map
      (countId (fqdn ep))).sum = 0
  generalize s.openRequVari = v
  induction v with
  | nil => rfl
  | cons q rest ih =>
    simp only [List.map_cons, List.sum_cons, ih]
    rw [countId_filter_ne_self]

theorem cancelRequest_aligned (fqdn : String → String) (ep : String) (s : SHState)
    (hQ : s.allowedQueries.length = s.openRequVari.length) :
    (cancelRequest fqdn ep s).allowedQueries.length =
      (cancelRequest fqdn ep s).openRequVari.length := by
  show s.allowedQueries.length =
    (s.openRequVari.map (fun vq => vq.filter (fun sub => sub.socketId != fqdn ep))).length
  rw [List.length_map]
  exact hQ

/-- One `to_remove` element applied to the query registries keeps them
aligned and never grows the pending entries. -/
theorem removeElement_query (e : String) (x : Subscription)
    (reg v : List (List Subscription)) (h : reg.length = v.length) :
    ∃ reg' v', removeElement ⟨reg, some v, none⟩ x = ⟨reg', some v', none⟩ ∧
      reg'.length = v'.length ∧
      (v'.map (countId e)).sum ≤ (v.map (countId e)).sum := by
  unfold removeElement
  dsimp only [Option.map]
  cases hidx : reg.findIdx? (fun ns => x ∈ ns) with
  | none =>
    exact ⟨reg, v.map (fun oq => oq.filter (fun sub => sub.socketId ≠ x.socketId)), rfl,
      by rw [List.length_map]; exact h,
      sum_map_filter_le e _ v⟩
  | some i =>
    dsimp only
    by_cases hemp : ((reg.getD i []).erase x).isEmpty
    · rw [if_pos hemp]
      refine ⟨(reg.set i ((reg.getD i []).erase x)).eraseIdx i,
        (v.map (fun oq => oq.filter (fun sub => sub.socketId ≠ x.socketId))).eraseIdx i,
        rfl, ?_, ?_⟩
      · rw [eraseIdx_set_same, List.length_eraseIdx, List.length_eraseIdx, List.length_map, h]
      · exact le_trans (sum_map_eraseIdx_le (countId e) _ i) (sum_map_filter_le e _ v)
    · rw [if_neg hemp]
      refine ⟨reg.set i ((reg.getD i []).erase x),
        v.map (fun oq => oq.filter (fun sub => sub.socketId ≠ x.socketId)),
        rfl, ?_, sum_map_filter_le e _ v⟩
      rw [List.length_set, List.length_map, h]

/-- One `to_remove` element applied to the stream registries preserves the
cursor invariant. -/
theorem removeElement_stream (x : Subscription)
    (reg : List (List Subscription)) (p : List Nat)
    (hF : List.Forall₂ cursorRel reg p) :
    ∃ reg' p', removeElement ⟨reg, none, some p⟩ x = ⟨reg', none, some p'⟩ ∧
      List.Forall₂ cursorRel reg' p' := by
  unfold removeElement
  dsimp only [Option.map]
  cases hidx : reg.findIdx? (fun ns => x ∈ ns) with
  | none => exact ⟨reg, p, rfl, hF⟩
  | some i =>
    dsimp only
    by_cases hemp : ((reg.getD i []).erase x).isEmpty
    · rw [if_pos hemp]
      refine ⟨(reg.set i ((reg.getD i []).erase x)).eraseIdx i, p.eraseIdx i, rfl, ?_⟩
      rw [eraseIdx_set_same]
      exact forall₂_eraseIdx i hF
    · rw [if_neg hemp]
      have hne : (reg.getD i []).erase x ≠ [] := by
        intro hnil
        rw [hnil] at hemp
        exact hemp rfl
      refine ⟨reg.set i ((reg.getD i []).erase x),
        p.set i (p.getD i 0 % ((reg.getD i []).erase x).length), rfl, ?_⟩
      exact forall₂_set i hF ⟨fun hnil => absurd hnil hne,
        fun _ => Nat.mod_lt _ (List.length_pos.mpr hne)⟩

theorem foldl_removeElement_query (e : String) :
    ∀ (elems : List Subscription) (reg v : List (List Subscription)),
      reg.length = v.length →
      ∃ reg' v', elems.foldl removeElement ⟨reg, some v, none⟩ = ⟨reg', some v', none⟩ ∧
        reg'.length = v'.length ∧
        (v'.map (countId e)).sum ≤ (v.map (countId e)).sum := by
  intro elems
  induction elems with
  | nil =>
    intro reg v h
    exact ⟨reg, v, rfl, h, le_rfl⟩
  | cons x rest ih =>
    intro reg v h
    obtain ⟨reg1, v1, heq1, hlen1, hsum1⟩ := removeElement_query e x reg v h
    obtain ⟨reg2, v2, heq2, hlen2, hsum2⟩ := ih reg1 v1 hlen1
    refine ⟨reg2, v2, ?_, hlen2, le_trans hsum2 hsum1⟩
    rw [List.foldl_cons, heq1, heq2]

theorem foldl_removeElement_stream :
    ∀ (elems : List Subscription) (reg : List (List Subscription)) (p : List Nat),
      List.Forall₂ cursorRel reg p →
      ∃ reg' p', elems.foldl removeElement ⟨reg, none, some p⟩ = ⟨reg', none, some p'⟩ ∧
        List.Forall₂ cursorRel reg' p' := by
  intro elems
  induction elems with
  | nil =>
    intro reg p hF
    exact ⟨reg, p, rfl, hF⟩
  | cons x rest ih =>
    intro reg p hF
    obtain ⟨reg1, p1, heq1, hF1⟩ := removeElement_stream x reg p hF
    obtain ⟨reg2, p2, heq2, hF2⟩ := ih reg1 p1 hF1
    refine ⟨reg2, p2, ?_, hF2⟩
    rw [List.foldl_cons, heq1, heq2]

/-- `_stop_signal` on the query registries: alignment and the pending
bound survive. -/
theorem stopSignal_query (fqdn : String → String) (socketIds : List SockConf) (e : String)
    (reg v : List (List Subscription)) (h : reg.length = v.length) :
    ∃ b reg' v',
      stopSignal fqdn socketIds reg (some v) none = (b, ⟨reg', some v', none⟩) ∧
      reg'.length = v'.length ∧
      (v'.map (countId e)).sum ≤ (v.map (countId e)).sum := by
  unfold stopSignal
  dsimp only
  by_cases hemp : ((socketIds.map (fun sc => fqdn sc.socketId)).flatMap
      (fun sid => reg.flatMap (fun ns => ns.filter (fun r => r.socketId = sid)))).isEmpty
  · rw [if_pos hemp]
    exact ⟨false, reg, v, rfl, h, le_rfl⟩
  · rw [if_neg hemp]
    obtain ⟨reg', v', heq, hlen, hsum⟩ := foldl_removeElement_query e
      ((socketIds.map (fun sc => fqdn sc.socketId)).flatMap
        (fun sid => reg.flatMap (fun ns => ns.filter (fun r => r.socketId = sid)))) reg v h
    exact ⟨true, reg', v', by rw [heq], hlen, hsum⟩

/-- `_stop_signal` on the stream registries preserves the cursor
invariant. -/
theorem stopSignal_stream (fqdn : String → String) (socketIds : List SockConf)
    (reg : List (List Subscription)) (p : List Nat)
    (hF : List.Forall₂ cursorRel reg p) :
    ∃ b reg' p',
      stopSignal fqdn socketIds reg none (some p) = (b, ⟨reg', none, some p'⟩) ∧
      List.Forall₂ cursorRel reg' p' := by
  unfold stopSignal
  dsimp only
  by_cases hemp : ((socketIds.map (fun sc => fqdn sc.socketId)).flatMap
      (fun sid => reg.flatMap (fun ns => ns.filter (fun r => r.socketId = sid)))).isEmpty
  · rw [if_pos hemp]
    exact ⟨false, reg, p, rfl, hF⟩
  · rw [if_neg hemp]
    obtain ⟨reg', p', heq, hF'⟩ := foldl_removeElement_stream
      ((socketIds.map (fun sc => fqdn sc.socketId)).flatMap
        (fun sid => reg.flatMap (fun ns => ns.filter (fun r => r.socketId = sid)))) reg p hF
    exact ⟨true, reg', p', by rw [heq], hF'⟩

/-- A START on the query registries keeps them aligned and never grows the
pending entries (replace resets the slot's pending list, append adds an
empty one). -/
theorem startSignal_query_effect (fqdn : String → String) (st : SendType)
    (tg : List SockConf) (e : String) (s : SHState)
    (hQ : s.allowedQueries.length = s.openRequVari.length) :
    (((startSignal fqdn st tg s.allowedQueries (some s.openRequVari) none).variRequests.getD
        s.openRequVari).map (countId e)).sum ≤ pendingCount e s ∧
    (startSignal fqdn st tg s.allowedQueries (some s.openRequVari) none).registeredIds.length =
      ((startSignal fqdn st tg s.allowedQueries (some s.openRequVari) none).variRequests.getD
        s.openRequVari).length := by
  rcases hidx : overwriteIndex (s.allowedQueries.map nodesetEndpoints)
      (nodesetEndpoints (convSubs fqdn st tg)) with _ | i
  · rw [startSignal_append fqdn st tg s.allowedQueries (some s.openRequVari) none hidx]
    dsimp only [Option.map, Option.getD]
    constructor
    · rw [List.map_append, List.sum_append]
      have h0 : (([([] : List Subscription)]).map (countId e)).sum = 0 := rfl
      rw [h0]
      exact le_of_eq (Nat.add_zero _)
    · simp [hQ]
  · rw [startSignal_replace fqdn st tg s.allowedQueries (some s.openRequVari) none i hidx]
    dsimp only [Option.map, Option.getD]
    exact ⟨sum_map_set_nil e s.openRequVari i,
      by rw [List.length_set, List.length_set]; exact hQ⟩

/-- A START on the stream registries preserves the cursor invariant (both
the replaced and the appended nodeset get cursor 0). -/
theorem startSignal_stream_effect (fqdn : String → String) (st : SendType)
    (tg : List SockConf) (s : SHState)
    (hF : List.Forall₂ cursorRel s.openRequPerm s.nextRequNode) :
    List.Forall₂ cursorRel
      (startSignal fqdn st tg s.openRequPerm none (some s.nextRequNode)).registeredIds
      ((startSignal fqdn st tg s.openRequPerm none (some s.nextRequNode)).permRequests.getD
        s.nextRequNode) := by
  have hcr : cursorRel (List.insertionSort (fun a b => subLe a b = true)
      (convSubs fqdn st tg)) 0 :=
    ⟨fun _ => rfl, fun hne => List.length_pos.mpr hne⟩
  rcases hidx : overwriteIndex (s.openRequPerm.map nodesetEndpoints)
      (nodesetEndpoints (convSubs fqdn st tg)) with _ | i
  · rw [startSignal_append fqdn st tg s.openRequPerm none (some s.nextRequNode) hidx]
    dsimp only [Option.map, Option.getD]
    exact List.rel_append hF (List.Forall₂.cons hcr List.Forall₂.nil)
  · rw [startSignal_replace fqdn st tg s.openRequPerm none (some s.nextRequNode) i hidx]
    dsimp only [Option.map, Option.getD]
    exact forall₂_set i hF hcr

/-- Every branch of `react_to_signal` keeps the query registries aligned
without growing the pending entries, and preserves the stream cursor
invariant. -/
theorem reactToSignal_effects (env : Env) (sig : String) (tg : List SockConf)
    (s : SHState) (e : String) :
    (s.allowedQueries.length = s.openRequVari.length →
      pendingCount e (reactToSignal env sig tg s).state ≤ pendingCount e s ∧
      (reactToSignal env sig tg s).state.allowedQueries.length =
        (reactToSignal env sig tg s).state.openRequVari.length) ∧
    (List.Forall₂ cursorRel s.openRequPerm s.nextRequNode →
      List.Forall₂ cursorRel (reactToSignal env sig tg s).state.openRequPerm
        (reactToSignal env sig tg s).state.nextRequNode) := by
  unfold reactToSignal
  split_ifs
  all_goals first
  | exact ⟨fun hQ => ⟨le_rfl, hQ⟩, fun hP => hP⟩
  | exact ⟨fun hQ => ⟨le_rfl, hQ⟩, fun hP => startSignal_stream_effect env.fqdn _ tg s hP⟩
  | exact ⟨fun hQ => startSignal_query_effect env.fqdn _ tg e s hQ, fun hP => hP⟩
  | (dsimp only
     split_ifs with hr
     · refine ⟨fun hQ => ⟨le_rfl, hQ⟩, fun hP => ?_⟩
       obtain ⟨b, reg', p', heq, hF'⟩ :=
         stopSignal_stream env.fqdn tg s.openRequPerm s.nextRequNode hP
       rw [heq]
       exact hF'
     · exact ⟨fun hQ => ⟨le_rfl, hQ⟩, fun hP => hP⟩)
  | (dsimp only
     split_ifs with hr
     · refine ⟨fun hQ => ?_, fun hP => hP⟩
       obtain ⟨b, reg', v', heq, hlen, hsum⟩ :=
         stopSignal_query env.fqdn tg e s.allowedQueries s.openRequVari hQ
       rw [heq]
       exact ⟨hsum, hlen⟩
     · exact ⟨fun hQ => ⟨le_rfl, hQ⟩, fun hP => hP⟩)

/-- The complete com-socket handler inherits the per-branch effects. -/
theorem handleCom_effects (env : Env) (m : InMessage) (s : SHState) (e : String) :
    (s.allowedQueries.length = s.openRequVari.length →
      pendingCount e (handleCom env m s).state ≤ pendingCount e s ∧
      (handleCom env m s).state.allowedQueries.length =
        (handleCom env m s).state.openRequVari.length) ∧
    (List.Forall₂ cursorRel s.openRequPerm s.nextRequNode →
      List.Forall₂ cursorRel (handleCom env m s).state.openRequPerm
        (handleCom env m s).state.nextRequNode) := by
  cases m with
  | malformed => exact ⟨fun hQ => ⟨le_rfl, hQ⟩, fun hP => hP⟩
  | valid version signal targets =>
    cases hc : checkSignalInverted env (.valid version signal targets) with
    | failed r =>
      have heq : handleCom env (.valid version signal targets) s = ⟨r, s, none⟩ := by
        unfold handleCom
        rw [hc]
      rw [heq]
      exact ⟨fun hQ => ⟨le_rfl, hQ⟩, fun hP => hP⟩
    | passed sig tg =>
      have heq : handleCom env (.valid version signal targets) s =
          reactToSignal env sig tg s := by
        unfold handleCom
        rw [hc]
      rw [heq]
      exact reactToSignal_effects env sig tg s e

/-! ### C3 — query grant accounting over traces -/

/-- Query grants emitted to `e` by one loop iteration (the `variLoop`
emissions of a GET_REQUESTS). -/
def queryGrantsOf (env : Env) (e : String) (ev : Event) (s : SHState) : Nat :=
  match ev with
  | .getRequests f => emitCount e (variLoop env.compile f s.openRequVari).1
  | _ => 0

/-- Pending entries appended for `e` by one loop iteration: a NEXT whose
fqdn-converted endpoint is `e` appends one entry per registered query
subscription of `e`. -/
def queryAppendsOf (env : Env) (e : String) (ev : Event) (s : SHState) : Nat :=
  match ev with
  | .next ep => if env.fqdn ep = e then allowedCount e s else 0
  | _ => 0

/-- Accumulated (grants, appends) for `e` over a trace. -/
def queryStats (env : Env) (e : String) : SHState → List Event → Nat × Nat
  | _, [] => (0, 0)
  | s, ev :: evs =>
    let r := queryStats env e (step env ev s).1 evs
    (queryGrantsOf env e ev s + r.1, queryAppendsOf env e ev s + r.2)

/-- Trace invariant: grants plus surviving pending entries never exceed
the accumulated appends plus the initially pending entries. -/
theorem queryStats_bound (env : Env) (e : String) :
    ∀ (evs : List Event) (s : SHState),
      s.allowedQueries.length = s.openRequVari.length →
      (queryStats env e s evs).1 + pendingCount e (run env s evs) ≤
        (queryStats env e s evs).2 + pendingCount e s := by
  intro evs
  induction evs with
  | nil =>
    intro s _
    exact le_rfl
  | cons ev evs ih =>
    intro s hQ
    have hstat1 : (queryStats env e s (ev :: evs)).1 =
        queryGrantsOf env e ev s + (queryStats env e (step env ev s).1 evs).1 := rfl
    have hstat2 : (queryStats env e s (ev :: evs)).2 =
        queryAppendsOf env e ev s + (queryStats env e (step env ev s).1 evs).2 := rfl
    have hrun : run env s (ev :: evs) = run env (step env ev s).1 evs := rfl
    rw [hstat1, hstat2, hrun]
    cases ev with
    | com m =>
      have hstep : (step env (Event.com m) s).1 = (handleCom env m s).state := rfl
      rw [hstep]
      have heff := (handleCom_effects env m s e).1 hQ
      have hih := ih (handleCom env m s).state heff.2
      have hg : queryGrantsOf env e (Event.com m) s = 0 := rfl
      have ha : queryAppendsOf env e (Event.com m) s = 0 := rfl
      rw [hg, ha]
      have h1 := heff.1
      omega
    | next ep =>
      have hstep : (step env (Event.next ep) s).1 = nextRequest env.fqdn ep s := rfl
      rw [hstep]
      have hg : queryGrantsOf env e (Event.next ep) s = 0 := rfl
      have ha : queryAppendsOf env e (Event.next ep) s =
          (if env.fqdn ep = e then allowedCount e s else 0) := rfl
      rw [hg, ha]
      have hp := nextRequest_pending env.fqdn ep e s hQ
      have hal := nextRequest_aligned env.fqdn ep s hQ
      have hih := ih (nextRequest env.fqdn ep s) hal
      omega
    | cancel ep =>
      have hstep : (step env (Event.cancel ep) s).1 = cancelRequest env.fqdn ep s := rfl
      rw [hstep]
      have hg : queryGrantsOf env e (Event.cancel ep) s = 0 := rfl
      have ha : queryAppendsOf env e (Event.cancel ep) s = 0 := rfl
      rw [hg, ha]
      have hp := cancelRequest_pending_le env.fqdn ep e s
      have hal := cancelRequest_aligned env.fqdn ep s hQ
      have hih := ih (cancelRequest env.fqdn ep s) hal
      omega
    | getRequests f =>
      have hg : queryGrantsOf env e (Event.getRequests f) s =
          emitCount e (variLoop env.compile f s.openRequVari).1 := rfl
      have ha : queryAppendsOf env e (Event.getRequests f) s = 0 := rfl
      rw [hg, ha]
      have hpend : pendingCount e (step env (Event.getRequests f) s).1 =
          ((variLoop env.compile f s.openRequVari).2.map (countId e)).sum := rfl
      have hbal := variLoop_pending env.compile f e s.openRequVari
      have hal : (step env (Event.getRequests f) s).1.allowedQueries.length =
          (step env (Event.getRequests f) s).1.openRequVari.length := by
        have h1 : (step env (Event.getRequests f) s).1.allowedQueries = s.allowedQueries := rfl
        have h2 : (step env (Event.getRequests f) s).1.openRequVari =
            (variLoop env.compile f s.openRequVari).2 := rfl
        rw [h1, h2, variLoop_length]
        exact hQ
      have hih := ih (step env (Event.getRequests f) s).1 hal
      rw [hpend] at hih
      have hps : pendingCount e s = (s.openRequVari.map (countId e)).sum := rfl
      rw [hps]
      omega

/-- Without a NEXT from `e` the trace accumulates no appends for `e`. -/
theorem queryStats_appends_zero (env : Env) (e : String) :
    ∀ (evs : List Event) (s : SHState),
      (∀ ep, Event.next ep ∈ evs → env.fqdn ep ≠ e) →
      (queryStats env e s evs).2 = 0 := by
  intro evs
  induction evs with
  | nil =>
    intro s _
    rfl
  | cons ev evs ih =>
    intro s hno
    have hstat : (queryStats env e s (ev :: evs)).2 =
        queryAppendsOf env e ev s + (queryStats env e (step env ev s).1 evs).2 := rfl
    rw [hstat, ih (step env ev s).1 (fun ep hm => hno ep (List.mem_cons_of_mem _ hm))]
    cases ev with
    | com m => rfl
    | next ep =>
      have hne := hno ep (List.mem_cons_self _ _)
      have ha : queryAppendsOf env e (Event.next ep) s =
          (if env.fqdn ep = e then allowedCount e s else 0) := rfl
      rw [ha, if_neg hne]
    | cancel ep => rfl
    | getRequests f => rfl

/-- C3 (amended): over any trace from the initial state, the number of
GET_REQUESTS emissions granted to a query endpoint `e` plus its still
pending entries never exceeds the accumulated appends for `e`, where each
NEXT from `e` appends one pending entry per registered query subscription
of `e` — not exactly one, so a duplicate registration lets one NEXT grant
several files; with no NEXT from `e` in the trace nothing is ever granted
to `e`; and a CANCEL from `e` removes every pending entry of `e` from
every query nodeset. -/
theorem c3_query_grant_accounting (env : Env) (e : String) (evs : List Event) :
    ((queryStats env e initState evs).1 + pendingCount e (run env initState evs) ≤
      (queryStats env e initState evs).2) ∧
    ((∀ ep, Event.next ep ∈ evs → env.fqdn ep ≠ e) →
      (queryStats env e initState evs).1 = 0) ∧
    (∀ (s : SHState) (ep : String), env.fqdn ep = e →
      pendingCount e (cancelRequest env.fqdn ep s) = 0) := by
  have hb := queryStats_bound env e evs initState rfl
  have hp0 : pendingCount e initState = 0 := rfl
  refine ⟨by omega, ?_, ?_⟩
  · intro hno
    have hz := queryStats_appends_zero env e evs initState hno
    omega
  · intro s ep hep
    have hc := cancelRequest_pending_self env.fqdn ep s
    rw [hep] at hc
    exact hc

/-- C3 witness: a trace whose only NEXT comes from another endpoint grants
nothing to `b:1`, and a CANCEL from `b:1` clears its pending entries. -/
theorem c3_query_grant_accounting_witness :
    (queryStats ⟨fun h => h, fun _ _ => true, ["a", "b"], true, "4.0.1"⟩ "b:1" initState
      [Event.next "a:1", Event.getRequests "f"]).1 = 0 ∧
    pendingCount "b:1"
      (cancelRequest (fun h => h) "b:1"
        ⟨[[⟨"b:1", 1, "p", .data⟩]], [], [], []⟩) = 0 := by
  have h := c3_query_grant_accounting
    ⟨fun h => h, fun _ _ => true, ["a", "b"], true, "4.0.1"⟩ "b:1"
    [Event.next "a:1", Event.getRequests "f"]
  constructor
  · refine h.2.1 ?_
    intro ep hm
    rcases List.mem_cons.mp hm with h1 | h2
    · injection h1 with h1
      subst h1
      decide
    · rcases List.mem_cons.mp h2 with h3 | h4
      · exact Event.noConfusion h3
      · exact absurd h4 (List.not_mem_nil _)
  · exact h.2.2 ⟨[[⟨"b:1", 1, "p", .data⟩]], [], [], []⟩ "b:1" rfl

/-- C3 counterexample: a START_QUERY_NEXT registering the same endpoint
twice makes the single NEXT of the trace append two pending entries,
after which two GET_REQUESTS each grant a file to that endpoint — two
grants from one NEXT, against "one NEXT grants exactly one file". -/
theorem c3_counterexample :
    (queryStats ⟨fun h => h, fun _ _ => true, ["e"], true, "4.0.1"⟩ "e:1" initState
      [Event.com (.valid "" "START_QUERY_NEXT" [⟨"e:1", 1, .raw "p"⟩, ⟨"e:1", 1, .raw "p"⟩]),
       Event.next "e:1",
       Event.getRequests "f1",
       Event.getRequests "f2"]).1 = 2 ∧
    (queryStats ⟨fun h => h, fun _ _ => true, ["e"], true, "4.0.1"⟩ "e:1" initState
      [Event.com (.valid "" "START_QUERY_NEXT" [⟨"e:1", 1, .raw "p"⟩, ⟨"e:1", 1, .raw "p"⟩]),
       Event.next "e:1",
       Event.getRequests "f1",
       Event.getRequests "f2"]).2 = 2 := by
  decide

/-! ### C10 — stream cursor invariant over traces -/

/-- One GET_REQUESTS pass preserves the cursor invariant pointwise. -/
theorem forall₂_cursorStep (compile : String → String → Bool) (f : String) :
    ∀ {perm : List (List Subscription)} {cs : List Nat},
      List.Forall₂ cursorRel perm cs →
      List.Forall₂ cursorRel perm (List.zipWith (cursorStepSpec compile f) perm cs) := by
  intro perm cs h
  induction h with
  | nil => exact List.Forall₂.nil
  | @cons a b l1 l2 hab hrest ih =>
    rw [List.zipWith_cons_cons]
    refine List.Forall₂.cons ?_ ih
    unfold cursorStepSpec
    cases hget : a[b]? with
    | none => exact hab
    | some sub =>
      dsimp only
      have hlt : b < a.length := (List.getElem?_eq_some.mp hget).1
      have hne : a ≠ [] := by
        intro hnil
        subst hnil
        simp at hlt
      by_cases hm : compile sub.patternStr f
      · rw [if_pos hm]
        exact ⟨fun hnil => absurd hnil hne, fun _ => Nat.mod_lt _ (List.length_pos.mpr hne)⟩
      · rw [if_neg hm]
        exact hab

/-- The cursor invariant is preserved by every event of a trace. -/
theorem run_cursorRel (env : Env) :
    ∀ (evs : List Event) (s : SHState),
      List.Forall₂ cursorRel s.openRequPerm s.nextRequNode →
      List.Forall₂ cursorRel (run env s evs).openRequPerm (run env s evs).nextRequNode := by
  intro evs
  induction evs with
  | nil =>
    intro s hF
    exact hF
  | cons ev evs ih =>
    intro s hF
    have hrun : run env s (ev :: evs) = run env (step env ev s).1 evs := rfl
    rw [hrun]
    refine ih (step env ev s).1 ?_
    cases ev with
    | com m =>
      have hstep : (step env (Event.com m) s).1 = (handleCom env m s).state := rfl
      rw [hstep]
      exact (handleCom_effects env m s "").2 hF
    | next ep => exact hF
    | cancel ep => exact hF
    | getRequests f =>
      have h1 : (step env (Event.getRequests f) s).1.openRequPerm = s.openRequPerm := rfl
      have h2 : (step env (Event.getRequests f) s).1.nextRequNode =
          (streamLoop env.compile f s.openRequPerm s.nextRequNode).2 := rfl
      rw [h1, h2]
      rw [streamLoop_spec env.compile f s.openRequPerm s.nextRequNode hF.length_eq]
      exact forall₂_cursorStep env.compile f hF

/-- C10 (amended): in every state reachable from the initial one through
com (START/STOP), NEXT, CANCEL and GET_REQUESTS events, the stream
registry and its cursor list have the same length, and pointwise the
cursor of every nonempty nodeset is strictly below the nodeset size while
an empty nodeset (registered by a START with an empty target list)
carries cursor 0 — for such empty nodesets the claimed
`cursor < len(nodeset)` fails. -/
theorem c10_cursor_invariant (env : Env) (evs : List Event) :
    (run env initState evs).openRequPerm.length =
      (run env initState evs).nextRequNode.length ∧
    List.Forall₂ cursorRel (run env initState evs).openRequPerm
      (run env initState evs).nextRequNode := by
  have h := run_cursorRel env evs initState List.Forall₂.nil
  exact ⟨h.length_eq, h⟩

/-- C10 counterexample: a START_STREAM with an empty target list is
admitted and registers the empty nodeset with cursor 0, so in the
resulting state `next_requ_node[0] < len(open_requ_perm[0])` fails. -/
theorem c10_counterexample :
    (run ⟨fun h => h, fun _ _ => true, ["a"], true, "4.0.1"⟩ initState
      [Event.com (.valid "" "START_STREAM" [])]).openRequPerm = [[]] ∧
    (run ⟨fun h => h, fun _ _ => true, ["a"], true, "4.0.1"⟩ initState
      [Event.com (.valid "" "START_STREAM" [])]).nextRequNode = [0] ∧
    ¬((0 : Nat) < ([] : List Subscription).length) := by
  decide

end Hidra
